import Mathlib

/-!
Verification development for the koyotecoin-maintainer-tools repository,
centred on `build-for-compare.py` (build orchestration and binary
fingerprinting pipeline).

Python strings are embedded as Lean `String`s; all character-level
operations of the source (slicing, `split`, `startswith`, `endswith`,
substring tests) are defined on the underlying `List Char` so that they
are executable and amenable to proof.  External library functions used by
the source (`os.path.abspath`, `os.path.join`, `str.split`, `int(_, 16)`,
`hashlib.sha1`) are embedded from their documented behaviour, restricted
to the ASCII/Latin-1 range that the tool's inputs occupy.
-/

set_option maxRecDepth 100000

/-- Characters of a string (the `String` structure's underlying list). -/
def chars (s : String) : List Char := s.data

/-- Build a string from a character list. -/
def ofChars (l : List Char) : String := ⟨l⟩

theorem chars_ofChars (l : List Char) : chars (ofChars l) = l := rfl

theorem ofChars_chars (s : String) : ofChars (chars s) = s := rfl

@[simp] theorem chars_append (s t : String) : chars (s ++ t) = chars s ++ chars t := by
  cases s; cases t; rfl

@[simp] theorem length_chars (s : String) : s.length = (chars s).length := rfl

/-- Boolean test that `pre` is a leading segment of `l`
(embeds Python `str.startswith`). -/
def leadsWith : List Char → List Char → Bool
  | [], _ => true
  | _ :: _, [] => false
  | p :: ps, c :: cs => p = c && leadsWith ps cs

/-- Boolean test that `suf` is a trailing segment of `l`
(embeds Python `str.endswith`). -/
def trailsWith (suf l : List Char) : Bool := leadsWith suf.reverse l.reverse

/-- Boolean substring test (embeds Python `in` on strings). -/
def hasSub (pat : List Char) : List Char → Bool
  | [] => leadsWith pat []
  | c :: cs => leadsWith pat (c :: cs) || hasSub pat cs

@[simp] theorem leadsWith_nil (l : List Char) : leadsWith [] l = true := by
  cases l <;> rfl

theorem leadsWith_append (p rest : List Char) : leadsWith p (p ++ rest) = true := by
  induction p with
  | nil => simp
  | cons c cs ih => simp [leadsWith, ih]

theorem leadsWith_head {c : Char} {p l : List Char}
    (h : leadsWith (c :: p) l = true) : leadsWith [c] l = true := by
  cases l with
  | nil => simp [leadsWith] at h
  | cons x xs =>
    simp [leadsWith] at h ⊢
    exact h.1

/-- Split a character list on a separator character (embeds Python
`str.split(sep)`: the result is never empty, and an empty input yields
one empty component). -/
def splitCharL (sep : Char) : List Char → List (List Char)
  | [] => [[]]
  | c :: cs =>
    let r := splitCharL sep cs
    if c = sep then [] :: r
    else
      match r with
      | h :: t => (c :: h) :: t
      | [] => [[c]]

/-- Join character-list components with a slash (used by the
`posixpath.normpath` embedding). -/
def joinWithSlash : List (List Char) → List Char
  | [] => []
  | [x] => x
  | x :: xs => x ++ '/' :: joinWithSlash xs

/-- Component loop of `posixpath.normpath`: drop empty and `.` components,
resolve `..` against the accumulated components (`acc` is kept reversed,
so its head is the most recent component). -/
def normpathLoop (isl : Nat) : List (List Char) → List (List Char) → List (List Char)
  | [], acc => acc.reverse
  | comp :: rest, acc =>
    if comp = [] ∨ comp = ['.'] then normpathLoop isl rest acc
    else if comp ≠ ['.', '.'] ∨ (isl = 0 ∧ acc = []) ∨ (acc ≠ [] ∧ acc.head? = some ['.', '.']) then
      normpathLoop isl rest (comp :: acc)
    else
      match acc with
      | [] => normpathLoop isl rest []
      | _ :: acc2 => normpathLoop isl rest acc2

/-- Embedding of `posixpath.normpath` on character lists: collapse
duplicate slashes, resolve `.` and `..`, preserve one or two leading
slashes. -/
def normpathL (p : List Char) : List Char :=
  if p = [] then ['.']
  else
    let isl : Nat :=
      if leadsWith ['/'] p then
        (if leadsWith ['/', '/'] p ∧ ¬leadsWith ['/', '/', '/'] p then 2 else 1)
      else 0
    let nc := normpathLoop isl (splitCharL '/' p) []
    let res := List.replicate isl '/' ++ joinWithSlash nc
    if res = [] then ['.'] else res

/-- Embedding of `posixpath.join` for the two-argument uses in the source:
an absolute second argument wins, otherwise the parts are joined with a
single slash. -/
def pyJoinL (a b : List Char) : List Char :=
  if leadsWith ['/'] b then b
  else if a = [] ∨ trailsWith ['/'] a then a ++ b
  else a ++ '/' :: b

/-- Embedding of `os.path.join` on strings. -/
def pyJoin (a b : String) : String := ofChars (pyJoinL (chars a) (chars b))

/-- Embedding of `os.path.abspath`: make the path absolute against the
current working directory, then normalize. -/
def abspathL (cwd p : List Char) : List Char :=
  normpathL (if leadsWith ['/'] p then p else pyJoinL cwd p)

/-- Temporary-files root: `tempfile.gettempdir()` with its default value
on the platforms the tool targets. -/
def TMPDIR : String := "/tmp"

/-- Embedding of `safe_path` from build-for-compare.py: absolutize the
path, require a leading slash, require more than one component after the
leading slash, and require the absolute path to start (as a raw character
sequence) with `TMPDIR`. -/
def safe_path (cwd path : String) : Bool :=
  let abspath := abspathL (chars cwd) (chars path)
  if ¬(leadsWith ['/'] abspath) then false
  else decide ((splitCharL '/' (abspath.drop 1)).length > 1) && leadsWith (chars TMPDIR) abspath

/-- Modelled from the spec: a path "lies under the configured temp root
and has at least one path component below that root" exactly when the
temp root followed by a slash is a leading segment of it.  Used only to
compare the spec's safety policy with the implemented one. -/
def underTmpRootSpec (p : String) : Bool :=
  leadsWith (chars TMPDIR ++ ['/']) (chars p)

/-! ## Commit id validation: embedding of Python `int(s, 16)` -/

/-- Hexadecimal digit accepted by CPython's base-16 integer parser:
`0`-`9`, `a`-`f`, `A`-`F`. -/
def isHexDigitChar (c : Char) : Bool :=
  decide ((48 ≤ c.toNat ∧ c.toNat ≤ 57) ∨ (97 ≤ c.toNat ∧ c.toNat ≤ 102) ∨
    (65 ≤ c.toNat ∧ c.toNat ≤ 70))

/-- Whitespace stripped by CPython's integer parser (ASCII/Latin-1
range): space, `\t`, `\n`, vertical tab, form feed, `\r`, the file/group/
record/unit separators 28-31, and NEL 133. -/
def pyIsSpace (c : Char) : Bool :=
  decide (c.toNat = 32 ∨ (9 ≤ c.toNat ∧ c.toNat ≤ 13) ∨ (28 ≤ c.toNat ∧ c.toNat ≤ 31) ∨
    c.toNat = 133)

/-- Strip leading parser whitespace. -/
def stripL (l : List Char) : List Char := l.dropWhile pyIsSpace

/-- Strip trailing parser whitespace. -/
def stripR (l : List Char) : List Char := (l.reverse.dropWhile pyIsSpace).reverse

/-- Digit run after the first digit: single underscores are allowed
between hex digits, never doubled, leading or trailing. -/
def digitsTail : List Char → Bool
  | [] => true
  | c :: r =>
    if c = '_' then
      match r with
      | [] => false
      | d :: r2 => isHexDigitChar d && digitsTail r2
    else isHexDigitChar c && digitsTail r

/-- Non-empty hex digit run with optional single internal underscores. -/
def digitsMain : List Char → Bool
  | [] => false
  | c :: r => isHexDigitChar c && digitsTail r

/-- Drop one optional leading sign. -/
def dropSign : List Char → List Char
  | [] => []
  | c :: r => if c = '+' ∨ c = '-' then r else c :: r

/-- Drop an optional `0x`/`0X` base marker; report whether one was
present (an underscore may directly follow the marker). -/
def dropHexMark : List Char → List Char × Bool
  | c0 :: c1 :: r => if c0 = '0' ∧ (c1 = 'x' ∨ c1 = 'X') then (r, true) else (c0 :: c1 :: r, false)
  | l => (l, false)

/-- Embedding of the success condition of Python `int(s, 16)` (the
commit-id validation in `main`): optional surrounding whitespace, an
optional sign, an optional `0x`/`0X` marker, then a non-empty run of hex
digits with optional single internal underscores (one underscore may also
directly follow the marker). -/
def pyIntBase16Valid (s : String) : Bool :=
  let l := stripR (stripL (chars s))
  let l2 := dropSign l
  let (l3, marked) := dropHexMark l2
  let l4 :=
    if marked then
      match l3 with
      | c :: r => if c = '_' then r else c :: r
      | [] => []
    else l3
  digitsMain l4

/-- Modelled from the spec: a "hexadecimal token" is a non-empty string
of bare hexadecimal digits.  Used only to compare the spec's validation
contract with the implemented one. -/
def hexTokenSpec (s : String) : Bool :=
  !(chars s).isEmpty && (chars s).all isHexDigitChar

/-! Basic facts connecting the validator with bare hex tokens. -/

theorem hex_not_space {c : Char} (h : isHexDigitChar c = true) : pyIsSpace c = false := by
  simp [isHexDigitChar] at h
  simp [pyIsSpace]
  omega

theorem hex_not_sign {c : Char} (h : isHexDigitChar c = true) : ¬(c = '+' ∨ c = '-') := by
  rintro (rfl | rfl) <;> simp [isHexDigitChar] at h

theorem all_hex_digitsTail {l : List Char} (h : ∀ c ∈ l, isHexDigitChar c = true) :
    digitsTail l = true := by
  induction l with
  | nil => rfl
  | cons c r ih =>
    have hc : isHexDigitChar c = true := h c (by simp)
    have hunder : ¬(c = '_') := by
      rintro rfl; simp [isHexDigitChar] at hc
    have hstep : digitsTail (c :: r) = (isHexDigitChar c && digitsTail r) := by
      cases r with
      | nil => simp [digitsTail, hunder]
      | cons d r2 => simp [digitsTail, hunder]
    rw [hstep, Bool.and_eq_true]
    exact ⟨hc, ih (fun d hd => h d (by simp [hd]))⟩

theorem all_hex_digitsMain {l : List Char} (hne : l ≠ []) (h : ∀ c ∈ l, isHexDigitChar c = true) :
    digitsMain l = true := by
  cases l with
  | nil => exact absurd rfl hne
  | cons c r =>
    simp only [digitsMain]
    have hc := h c (by simp)
    simp [hc]
    exact all_hex_digitsTail (fun d hd => h d (by simp [hd]))

theorem all_hex_stripL {l : List Char} (h : ∀ c ∈ l, isHexDigitChar c = true) :
    stripL l = l := by
  cases l with
  | nil => rfl
  | cons c r =>
    have := hex_not_space (h c (by simp))
    simp [stripL, List.dropWhile_cons, this]

theorem all_hex_stripR {l : List Char} (h : ∀ c ∈ l, isHexDigitChar c = true) :
    stripR l = l := by
  unfold stripR
  have hrev : ∀ c ∈ l.reverse, isHexDigitChar c = true := by
    intro c hc; exact h c (List.mem_reverse.mp hc)
  cases hl : l.reverse with
  | nil =>
    have : l = [] := by simpa using congrArg List.reverse hl
    simp [this]
  | cons c r =>
    have hc : isHexDigitChar c = true := hrev c (by simp [hl])
    rw [List.dropWhile_cons, hex_not_space hc]
    have : l = (c :: r).reverse := by
      have h2 := congrArg List.reverse hl
      simpa using h2
    simp [this]

/-- Every bare hexadecimal token is accepted by the commit-id validator. -/
theorem hexToken_accepted (s : String) (h : hexTokenSpec s = true) :
    pyIntBase16Valid s = true := by
  unfold hexTokenSpec at h
  rw [Bool.and_eq_true] at h
  obtain ⟨hne, hall⟩ := h
  have hall2 : ∀ c ∈ chars s, isHexDigitChar c = true := by
    intro c hc; exact (List.all_eq_true.mp hall) c hc
  have hne2 : chars s ≠ [] := by
    intro habs; rw [habs] at hne; simp at hne
  unfold pyIntBase16Valid
  rw [all_hex_stripL hall2, all_hex_stripR hall2]
  cases hcs : chars s with
  | nil => exact absurd hcs hne2
  | cons c r =>
    have hc : isHexDigitChar c = true := hall2 c (by simp [hcs])
    have hsign : ¬(c = '+' ∨ c = '-') := hex_not_sign hc
    simp only [dropSign, if_neg hsign]
    have hmark : dropHexMark (c :: r) = (c :: r, false) := by
      cases r with
      | nil => rfl
      | cons c1 r2 =>
        have hc1 : isHexDigitChar c1 = true := hall2 c1 (by simp [hcs])
        have : ¬(c = '0' ∧ (c1 = 'x' ∨ c1 = 'X')) := by
          rintro ⟨-, (rfl | rfl)⟩ <;> simp [isHexDigitChar] at hc1
        simp [dropHexMark, this]
    rw [hmark]
    simp only [Bool.false_eq_true, if_false]
    exact all_hex_digitsMain (by simp) (by rw [← hcs]; exact hall2)

/-! ## SHA-1 (embedding of `hashlib.sha1(...).hexdigest()`)

Machine words are `Nat` with explicit reduction modulo `2^32`. -/

/-- Word modulus. -/
def M32 : Nat := 4294967296

/-- Rotate a 32-bit word left by `n` bits. -/
def rotl32 (n x : Nat) : Nat := ((x <<< n) ||| (x >>> (32 - n))) % M32

/-- Round constants. -/
def sha1K (t : Nat) : Nat :=
  if t < 20 then 0x5A827999 else if t < 40 then 0x6ED9EBA1
  else if t < 60 then 0x8F1BBCDC else 0xCA62C1D6

/-- Round functions (complement is XOR with the all-ones word). -/
def sha1F (t b c d : Nat) : Nat :=
  if t < 20 then (b &&& c) ||| ((b ^^^ 0xFFFFFFFF) &&& d)
  else if t < 40 then b ^^^ c ^^^ d
  else if t < 60 then (b &&& c) ||| (b &&& d) ||| (c &&& d)
  else b ^^^ c ^^^ d

/-- Big-endian 8-byte encoding of the bit length. -/
def be64 (n : Nat) : List Nat :=
  [(n >>> 56) % 256, (n >>> 48) % 256, (n >>> 40) % 256, (n >>> 32) % 256,
   (n >>> 24) % 256, (n >>> 16) % 256, (n >>> 8) % 256, n % 256]

/-- Merkle-Damgard padding: `0x80`, zeros to 56 mod 64, 64-bit bit length. -/
def sha1Pad (msg : List Nat) : List Nat :=
  msg ++ [128] ++ List.replicate ((119 - msg.length % 64) % 64) 0 ++
    be64 ((msg.length * 8) % (2 ^ 64))

/-- Split a byte list into 64-byte blocks (`fuel` bounds the recursion
depth structurally; it is instantiated with the list length, which always
suffices). -/
def chunksGo : Nat → List Nat → List (List Nat)
  | _, [] => []
  | 0, _ :: _ => []
  | fuel + 1, x :: xs => ((x :: xs).take 64) :: chunksGo fuel ((x :: xs).drop 64)

/-- Split a byte list into 64-byte blocks. -/
def chunks64 (l : List Nat) : List (List Nat) := chunksGo l.length l

/-- Group bytes into big-endian 32-bit words. -/
def wordsOf : List Nat → List Nat
  | b0 :: b1 :: b2 :: b3 :: rest =>
    ((b0 <<< 24) + (b1 <<< 16) + (b2 <<< 8) + b3) :: wordsOf rest
  | _ => []

/-- Expand the 16 block words into the 80-entry message schedule. -/
def sha1Schedule (ws : List Nat) : Array Nat :=
  (List.range 64).foldl
    (fun a i =>
      let t := i + 16
      a.push (rotl32 1 ((a.getD (t - 3) 0) ^^^ (a.getD (t - 8) 0) ^^^
        (a.getD (t - 14) 0) ^^^ (a.getD (t - 16) 0))))
    ws.toArray

/-- Compress one 64-byte block into the running state. -/
def sha1Block (h : Nat × Nat × Nat × Nat × Nat) (block : List Nat) :
    Nat × Nat × Nat × Nat × Nat :=
  let w := sha1Schedule (wordsOf block)
  let (h0, h1, h2, h3, h4) := h
  let st := (List.range 80).foldl
    (fun st t =>
      let (a, b, c, d, e) := st
      ((rotl32 5 a + sha1F t b c d + e + sha1K t + w.getD t 0) % M32,
        a, rotl32 30 b, c, d))
    (h0, h1, h2, h3, h4)
  let (a, b, c, d, e) := st
  ((h0 + a) % M32, (h1 + b) % M32, (h2 + c) % M32, (h3 + d) % M32, (h4 + e) % M32)

/-- SHA-1 state after processing a whole byte message. -/
def sha1Digest (msg : List Nat) : Nat × Nat × Nat × Nat × Nat :=
  (chunks64 (sha1Pad msg)).foldl sha1Block
    (0x67452301, 0xEFCDAB89, 0x98BADCFE, 0x10325476, 0xC3D2E1F0)

/-- Lower-case hex digit. -/
def hexDigitChar (n : Nat) : Char := Char.ofNat (if n < 10 then 48 + n else 87 + n)

/-- Eight-hex-digit rendering of a 32-bit word. -/
def toHex8 (n : Nat) : List Char :=
  (List.range 8).map (fun i => hexDigitChar ((n >>> (28 - 4 * i)) % 16))

/-- Hex digest string, as `hashlib.sha1(bytes).hexdigest()`. -/
def sha1Hex (msg : List Nat) : String :=
  let (h0, h1, h2, h3, h4) := sha1Digest msg
  ofChars (toHex8 h0 ++ toHex8 h1 ++ toHex8 h2 ++ toHex8 h3 ++ toHex8 h4)

/-- UTF-8 encoding of one code point (embeds `str.encode()` per
character). -/
def utf8Char (c : Char) : List Nat :=
  let n := c.toNat
  if n < 128 then [n]
  else if n < 2048 then [192 + n / 64, 128 + n % 64]
  else if n < 65536 then [224 + n / 4096, 128 + (n / 64) % 64, 128 + n % 64]
  else [240 + n / 262144, 128 + (n / 4096) % 64, 128 + (n / 64) % 64, 128 + n % 64]

/-- UTF-8 encoding of a string (embeds `str.encode()`). -/
def utf8Encode (s : String) : List Nat := ((chars s).map utf8Char).flatten

/-! ## Disassembly post-processing (`objdump_all` in build-for-compare.py) -/

/-- Embedding of `str.splitlines()` for the line terminators that occur
in disassembler output (`\n`, `\r\n`, `\r`); no trailing empty line.
`fuel` bounds the recursion depth structurally and is instantiated with
the input length, which always suffices. -/
def splitlinesGo : Nat → List Char → List Char → List (List Char)
  | _, cur, [] => if cur = [] then [] else [cur.reverse]
  | 0, cur, _ :: _ => [cur.reverse]
  | fuel + 1, cur, c :: cs =>
    if c = '\n' then cur.reverse :: splitlinesGo fuel [] cs
    else if c = '\r' then
      match cs with
      | '\n' :: cs2 => cur.reverse :: splitlinesGo fuel [] cs2
      | rest => cur.reverse :: splitlinesGo fuel [] rest
    else splitlinesGo fuel (c :: cur) cs

/-- Lines of a Python string per `splitlines()`. -/
def pySplitlines (s : String) : List String :=
  (splitlinesGo (chars s).length [] (chars s)).map ofChars

/-- Match of the section-header regular expression
`^Disassembly of section (.*):$`; returns the captured section name. -/
def headerName (line : String) : Option String :=
  let pre := chars "Disassembly of section "
  if leadsWith pre (chars line) ∧ trailsWith [':'] (chars line) ∧
      pre.length + 1 ≤ (chars line).length then
    some (ofChars (((chars line).drop pre.length).dropLast))
  else none

/-- Append a line to the entry of key `k`, preserving insertion order
(embeds `defaultdict(list)` access followed by `append`). -/
def addLineTo (m : List (String × List String)) (k : String) (line : String) :
    List (String × List String) :=
  match m with
  | [] => [(k, [line])]
  | (k2, ls) :: rest =>
    if k2 = k then (k2, ls ++ [line]) :: rest else (k2, ls) :: addLineTo rest k line

/-- Line loop of `objdump_all`: track the current section name from
header lines, and keep every line that does not mention `.rodata` under
the current section. -/
def sectionsLoop : List String → String → List (String × List String) →
    List (String × List String)
  | [], _, acc => acc
  | line :: rest, fn, acc =>
    let fn2 := match headerName line with
      | some n => n
      | none => fn
    let acc2 := if hasSub (chars ".rodata") (chars line) then acc else addLineTo acc fn2 line
    sectionsLoop rest fn2 acc2

/-- Filtered sections of one disassembler output: association list from
section name to its kept lines (the unnamed leading segment has key ""). -/
def splitFilterSections (out : String) : List (String × List String) :=
  sectionsLoop (pySplitlines out) "" []

/-- Embedding of `'\n'.join(...)`. -/
def strJoinNL : List String → String
  | [] => ""
  | [x] => x
  | x :: xs => x ++ "\n" ++ strJoinNL xs

/-- File name under which one section is persisted:
`os.path.join(tgtdir, sha1(section_name).hexdigest() + '.dis')`. -/
def sectionOutName (tgtdir sec : String) : String :=
  pyJoin tgtdir (sha1Hex (utf8Encode sec) ++ ".dis")

/-- Files written by the post-processing of one object file's
disassembly: for every named section, the pair of its hash file name and
its persisted content (the filtered lines joined by newlines). -/
def objdumpWrites (tgtdir out : String) : List (String × String) :=
  ((splitFilterSections out).filter (fun p => decide (¬(p.1 = "")))).map
    (fun p => (sectionOutName tgtdir p.1, strJoinNL p.2))

/-! ## Object-file collection (`iterate_objs` / `copy_o_files`) -/

/-- Object file extension (`OBJEXT` environment default). -/
def OBJEXT : String := ".o"

/-- Abstraction of one file yielded by `os.walk(srcdir)`: the directory's
path relative to the walk root (`""` for the root itself) and the file
name within it. -/
structure WalkEntry where
  dir : String
  file : String
deriving DecidableEq

/-- Absolute-to-the-walk (root, ...) directory string `os.walk` reports
for an entry: the walk root itself for the top level, otherwise the root
joined with the relative directory. -/
def walkRoot (srcdir : String) (en : WalkEntry) : String :=
  if en.dir = "" then srcdir else srcdir ++ "/" ++ en.dir

/-- Embedding of `iterate_objs`: for every walked file, check that the
reported root starts with `srcdir` (the source raises `ValueError`
otherwise, modeled as `none`), strip `srcdir` plus the following slash,
and yield the relative path of every file whose name ends in `OBJEXT`. -/
def iterate_objs (srcdir : String) : List WalkEntry → Option (List String)
  | [] => some []
  | en :: rest =>
    let root := walkRoot srcdir en
    if ¬(leadsWith (chars srcdir) (chars root)) then none
    else
      let rootRel := ofChars ((chars root).drop (srcdir.length + 1))
      (iterate_objs srcdir rest).map (fun objs =>
        if trailsWith (chars OBJEXT) (chars en.file) then
          pyJoin rootRel en.file :: objs
        else objs)

/-- Embedding of `copy_o_files`: the list of (source, destination) copy
actions, where the destination is the object's relative path joined below
`tgtdir` (intermediate directories are created on demand before each
copy). -/
def copy_o_files (srcdir tgtdir : String) (walk : List WalkEntry) :
    Option (List (String × String)) :=
  (iterate_objs srcdir walk).map
    (List.map (fun objname => (pyJoin srcdir objname, pyJoin tgtdir objname)))

/-! ## Shell-word quoting (`shlex.quote` / `shell_join` / `shell_split`) -/

/-- Characters `shlex.quote` treats as safe: letters, digits, underscore,
at, percent, plus, equals, colon, comma, dot, slash, dash. -/
def shlexSafeChar (c : Char) : Bool :=
  c.isAlphanum || decide (c ∈ ['_', '@', '%', '+', '=', ':', ',', '.', '/', '-'])

/-- Single-quote character. -/
def quoteChar : Char := Char.ofNat 39

/-- Embedding of `shlex.quote`: safe words unchanged, the empty string
and unsafe words wrapped in single quotes (embedded single quotes become
a quoted double-quoted quote). -/
def shlexQuote (s : String) : String :=
  if s = "" then ofChars [quoteChar, quoteChar]
  else if (chars s).all shlexSafeChar then s
  else
    let q : List Char := [quoteChar]
    let rep : List Char := [quoteChar, '"', quoteChar, '"', quoteChar]
    ofChars (q ++ ((chars s).map (fun c => if c = quoteChar then rep else [c])).flatten ++ q)

/-- Embedding of `shell_join` from build-for-compare.py. -/
def shell_join (l : List String) : String :=
  strJoinSep " " (l.map shlexQuote)
where
  /-- Join with a separator (embeds `str.join`). -/
  strJoinSep (sep : String) : List String → String
    | [] => ""
    | [x] => x
    | x :: xs => x ++ sep ++ strJoinSep sep xs

/-- Embedding of `shell_split` (`shlex.split`) for inputs without quote
or escape characters, which is how the tool uses it on optimization-flag
strings: split on runs of whitespace, dropping empty words. -/
def shell_split (s : String) : List String :=
  ((splitCharL ' ' (chars s)).filter (fun w => decide (w ≠ []))).map ofChars

/-! ## Orchestrator model (`main` / `parse_arguments` of build-for-compare.py)

The run of the tool is modeled as a trace of observable events (log
lines, filesystem operations, subprocess invocations) together with a
process exit status.  The environment's behaviour (which directories
pre-exist, which subprocesses fail, the interactive answer) is a `World`
parameter; Python exceptions are an explicit `Outcome`.  `SystemExit`
(raised by `exit(1)`) is not an `Exception` subclass, so it is not caught
by the top-level handler and becomes the process exit status. -/

/-- Tool constants (environment-variable defaults of the source). -/
def GIT : String := "git"

def MAKE : String := "make"

def RSYNC : String := "rsync"

def OBJCOPY : String := "objcopy"

def OBJDUMP : String := "objdump"

def DEFAULT_PATCH : String := "stripbuildinfo.patch"

def DEFAULT_PARALLELISM : Nat := 4

def DEFAULT_TGTDIR : String := pyJoin TMPDIR "compare"

def DEFAULT_REPODIR : String := pyJoin TMPDIR "repo"

def OBJCOPY_ARGS : List String := ["-R.note.gnu.build-id", "-g", "-S"]

def OBJDUMP_ARGS : List String := ["-C", "--no-show-raw-insn", "-d", "-r"]

def CONFIGURE_EXTRA : List String :=
  ["EVENT_CFLAGS=-I/opt/libevent/include",
   "EVENT_LIBS=-L/opt/libevent/lib -levent",
   "EVENT_PTHREADS_CFLAGS=-I/opt/libevent/include",
   "EVENT_PTHREADS_LIBS=-L/opt/libevent/lib -levent_pthreads"]

def OPTFLAGS : List String :=
  ["-O0", "-g0",
   "-fcombine-stack-adjustments", "-fcompare-elim", "-fcprop-registers", "-fdefer-pop",
   "-fforward-propagate", "-fif-conversion", "-fif-conversion2",
   "-finline-functions-called-once", "-fshrink-wrap", "-fsplit-wide-types",
   "-ftree-bit-ccp", "-ftree-ccp", "-ftree-ch", "-ftree-copy-prop", "-ftree-copyrename",
   "-ftree-dce", "-ftree-dominator-opts", "-ftree-dse", "-ftree-fre", "-ftree-sink",
   "-ftree-slsr", "-ftree-sra", "-ftree-ter",
   "-ffunction-sections", "-fdata-sections",
   "-frandom-seed=notsorandom",
   "-fmerge-all-constants",
   "-fno-ipa-sra",
   "-fno-reorder-functions"]

def CPPFLAGS : List String := []

/-- Observable events of one run. -/
inductive Event where
  | optErrLog
  | safeCheck (path : String) (ok : Bool)
  | repoUnsafeLog
  | mkdirTgt (dir : String)
  | warnExists
  | promptDelete
  | removingLog
  | call (args : List String)
  | cmdFailedLog (args : List String)
  | badIdLog (c : String)
  | whichCall (cmd : String) (ok : Bool)
  | rsyncLog
  | noRsyncWarn
  | copyRepoLog
  | chdir (dir : String)
  | buildingLog (c : String)
  | skipLog (dir : String)
  | mkdirCommit (dir : String)
  | userPatchLog (p : String)
  | patchFailLog
  | configureLog
  | buildExeLog (name : String)
  | copyFile (src dst : String)
  | copyObjLog
  | copyO (src dst : String)
  | analysisLog
  | objdumpAll (src dst : String)
  | compareLog
  | topErrorLog
deriving DecidableEq

/-- Python exceptions distinguished by the source's handlers. -/
inductive PyExn where
  | calledProcess (args : List String)
  | objdumpFailed
deriving DecidableEq

/-- How a code fragment ends: normally, by `exit(code)` (`SystemExit`),
or by a propagating exception. -/
inductive Outcome where
  | ok
  | exited (code : Nat)
  | raised (e : PyExn)
deriving DecidableEq

/-- Trace-and-outcome of a code fragment. -/
abbrev Step := List Event × Outcome

/-- Events with normal completion. -/
def emitS (es : List Event) : Step := (es, .ok)

/-- Sequential composition: the second fragment runs only if the first
completes normally. -/
def seqS (a b : Step) : Step :=
  match a.2 with
  | .ok => (a.1 ++ b.1, b.2)
  | _ => a

/-- Environment of one run. -/
structure World where
  /-- Working directory when the tool starts (for `os.path.abspath`). -/
  cwd : String
  /-- Directory containing the script (for `PATCHDIR`). -/
  pydir : String
  /-- Whether the target directory already exists. -/
  tgtdirExists : Bool
  /-- Interactive answer to the delete prompt. -/
  userInput : String
  /-- Whether the `which rsync` probe succeeds. -/
  rsyncAvailable : Bool
  /-- Which per-revision artifact directories pre-exist (at the time
  `os.makedirs` runs for them). -/
  commitdirExists : String → Bool
  /-- Which `check_call` subprocess invocations exit non-zero. -/
  cmdFails : List String → Bool
  /-- Whether the disassembler pass fails for a given revision. -/
  objdumpFails : String → Bool

/-- Parsed command-line arguments (after `argparse`, before the custom
processing at the end of `parse_arguments`). -/
structure Args where
  commitids : List String
  /-- Raw comma-separated executables option. -/
  executables : String
  tgtdir : String
  repodir : String
  parallelism : Nat
  assertions : Nat
  /-- Raw optimization override (must start with `+` when present). -/
  opt : Option String
  /-- Raw comma-separated per-revision patch list. -/
  patches : Option String
  /-- Depends path passed to configure when present. -/
  dependsDir : Option String
  /-- Build in place when non-zero. -/
  nocopy : Nat

/-- Validity of the `--opt` override (must start with `+`). -/
def optOk (a : Args) : Bool :=
  match a.opt with
  | none => true
  | some s => leadsWith ['+'] (chars s)

/-- Optimization flags used: override without its `+`, split into words,
else the builtin list. -/
def optList (a : Args) : List String :=
  match a.opt with
  | none => OPTFLAGS
  | some s => shell_split (ofChars ((chars s).drop 1))

/-- Requested executables (comma-split). -/
def exesList (a : Args) : List String :=
  (splitCharL ',' (chars a.executables)).map ofChars

/-- Embedding of `str.strip()` for the whitespace range of `pyIsSpace`. -/
def pyStrip (s : String) : String := ofChars (stripR (stripL (chars s)))

/-- The `dict(zip(commitids, patches.split(',')))` mapping, as the zipped
association list (later duplicate keys override earlier ones on lookup,
as in a Python dict). -/
def patchDict (a : Args) : List (String × String) :=
  match a.patches with
  | none => []
  | some ps => a.commitids.zip (((splitCharL ',' (chars ps)).map ofChars).map pyStrip)

/-- Whether a commit has a user-supplied patch (`commit in args.patches`). -/
def hasUserPatch (a : Args) (c : String) : Bool := ((patchDict a).lookup c).isSome

/-- Patch applied for a commit: its dict entry (last zip occurrence) or
the default. -/
def patchFor (a : Args) (c : String) : String :=
  (((patchDict a).reverse).lookup c).getD DEFAULT_PATCH

/-- Patch directory next to the script. -/
def PATCHDIR (w : World) : String := pyJoin w.pydir "patches"

/-- Argument vector of the patch-apply subprocess for a commit. -/
def gitApplyArgs (w : World) (a : Args) (c : String) : List String :=
  [GIT, "apply", pyJoin (PATCHDIR w) (patchFor a c)]

/-- Preprocessor flags after the assertions toggle. -/
def cppflagsOf (a : Args) : List String :=
  if a.assertions = 0 then CPPFLAGS ++ ["-DNDEBUG"] else CPPFLAGS

/-- Make parallelism arguments. -/
def makeArgsOf (a : Args) : List String := ["-j" ++ toString a.parallelism]

/-- Command probed by `cmd_exists` (first word of `RSYNC`). -/
def RSYNC_CMD : String := ofChars ((splitCharL ' ' (chars RSYNC)).headD [])

/-- Embedding of `check_call`: the subprocess is invoked; on a non-zero
exit the full command line is logged and `CalledProcessError`
propagates. -/
def check_callStep (w : World) (args : List String) : Step :=
  if w.cmdFails args then ([.call args, .cmdFailedLog args], .raised (.calledProcess args))
  else ([.call args], .ok)

/-- The `except subprocess.CalledProcessError` handler around the patch
application: log and `exit(1)`. -/
def catchPatch (s : Step) : Step :=
  match s.2 with
  | .raised (.calledProcess _) => (s.1 ++ [.patchFailLog], .exited 1)
  | _ => s

/-- Configure invocation argument vector. -/
def configureArgs (a : Args) : List String :=
  let opt := shell_join (optList a)
  ["./configure", "--disable-hardening", "--without-cli", "--disable-tests",
   "--disable-bench", "--disable-ccache",
   (match a.dependsDir with
    | some p => "--prefix=" ++ p
    | none => "--with-incompatible-bdb"),
   "CPPFLAGS=" ++ shell_join.strJoinSep " " (cppflagsOf a),
   "CFLAGS=" ++ opt, "CXXFLAGS=" ++ opt, "LDFLAGS=" ++ opt] ++ CONFIGURE_EXTRA

/-- Embedding of `os.path.basename`. -/
def pyBasename (s : String) : String := ofChars ((splitCharL '/' (chars s)).getLastD [])

/-- Build, copy and strip one executable for one commit. -/
def exeStep (w : World) (a : Args) (c name : String) : Step :=
  let targetName := pyJoin a.tgtdir (pyBasename name ++ "." ++ c)
  seqS (emitS [.buildExeLog name]) <|
  seqS (check_callStep w ([MAKE] ++ makeArgsOf a ++ [name])) <|
  seqS (emitS [.copyFile name targetName])
    (check_callStep w ([OBJCOPY] ++ OBJCOPY_ARGS ++ [name, targetName ++ ".stripped"]))

/-- Loop over the requested executables. -/
def exesLoop (w : World) (a : Args) (c : String) : List String → Step
  | [] => emitS []
  | n :: rest => seqS (exeStep w a c n) (exesLoop w a c rest)

/-- Patch application with its dedicated handler. -/
def patchStep (w : World) (a : Args) (c : String) : Step :=
  catchPatch
    (seqS (emitS (if hasUserPatch a c then [.userPatchLog (patchFor a c)] else []))
      (check_callStep w (gitApplyArgs w a c)))

/-- One iteration of the per-commit loop of `main`: skip when the
commit's artifact directory already exists, otherwise reset, clean,
checkout, patch, configure, compile each target, collect object files
and run the analysis pass. -/
def buildCommit (w : World) (a : Args) (c : String) : Step :=
  let commitdir := pyJoin a.tgtdir c
  let commitdirObj := pyJoin a.tgtdir (c ++ ".o")
  seqS (emitS [.buildingLog c]) <|
  if w.commitdirExists c then emitS [.skipLog commitdir]
  else
    seqS (emitS [.mkdirCommit commitdir]) <|
    seqS (check_callStep w [GIT, "reset", "--hard"]) <|
    seqS (check_callStep w [GIT, "clean", "-f", "-x", "-d"]) <|
    seqS (check_callStep w [GIT, "checkout", c]) <|
    seqS (patchStep w a c) <|
    seqS (check_callStep w ["./autogen.sh"]) <|
    seqS (emitS [.configureLog]) <|
    seqS (check_callStep w (configureArgs a)) <|
    seqS (exesLoop w a c (exesList a)) <|
    seqS (emitS [.copyObjLog, .copyO "." commitdirObj]) <|
    seqS (emitS [.analysisLog])
      (if w.objdumpFails c then ([], .raised .objdumpFailed)
       else emitS [.objdumpAll commitdirObj commitdir])

/-- The per-commit loop. -/
def buildLoop (w : World) (a : Args) : List String → Step
  | [] => emitS []
  | c :: rest => seqS (buildCommit w a c) (buildLoop w a rest)

/-- Commit-id validation loop: the first non-hexadecimal id is logged
and the process exits with status 1. -/
def validateIds : List String → Step
  | [] => emitS []
  | c :: rest =>
    if pyIntBase16Valid c then validateIds rest else ([.badIdLog c], .exited 1)

/-- Target-directory handling at the top of `main`: create it, or if it
already exists warn and (only when it passes `safe_path` and the user
confirms) remove it recursively. -/
def preludeStep (w : World) (a : Args) : Step :=
  if w.tgtdirExists = false then emitS [.mkdirTgt a.tgtdir]
  else if safe_path w.cwd a.tgtdir then
    if w.userInput = "y" ∨ w.userInput = "Y" then
      seqS (emitS [.warnExists, .safeCheck a.tgtdir (safe_path w.cwd a.tgtdir),
        .promptDelete, .removingLog])
        (check_callStep w ["rm", "-rf", a.tgtdir])
    else emitS [.warnExists, .safeCheck a.tgtdir (safe_path w.cwd a.tgtdir), .promptDelete]
  else emitS [.warnExists, .safeCheck a.tgtdir (safe_path w.cwd a.tgtdir)]

/-- Repository copy: rsync with deletion of extraneous files when
available, else a recursive `cp` preceded by removing the nested
`.git`. -/
def copyRepoStep (w : World) (a : Args) : Step :=
  if w.rsyncAvailable then
    seqS (emitS [.whichCall RSYNC_CMD true, .rsyncLog])
      (check_callStep w [RSYNC, "-r", "--delete", ".git", a.repodir])
  else
    let gitdir := pyJoin a.repodir ".git"
    seqS (emitS [.whichCall RSYNC_CMD false, .noRsyncWarn, .copyRepoLog]) <|
    seqS (check_callStep w ["mkdir", "-p", a.repodir]) <|
    seqS (check_callStep w ["touch", gitdir]) <|
    seqS (check_callStep w ["rm", "-rf", gitdir])
      (check_callStep w ["cp", "-r", ".git", a.repodir])

/-- Staging: copy the repository and change into it, unless building in
place or the staging directory fails `safe_path`. -/
def stageStep (w : World) (a : Args) : Step :=
  if a.nocopy ≠ 0 then emitS []
  else if safe_path w.cwd a.repodir then
    seqS (emitS [.safeCheck a.repodir (safe_path w.cwd a.repodir)])
      (seqS (copyRepoStep w a) (emitS [.chdir a.repodir]))
  else emitS [.safeCheck a.repodir (safe_path w.cwd a.repodir)]

/-- Final reporting when more than one revision was requested. -/
def compareStep (a : Args) : Step :=
  if a.commitids.length > 1 then emitS [.compareLog] else emitS []

/-- Body of `main`'s top-level `try` block. -/
def mainBody (w : World) (a : Args) : Step :=
  seqS (preludeStep w a) <|
  seqS (validateIds a.commitids) <|
  seqS (stageStep w a)
    (seqS (buildLoop w a a.commitids) (compareStep a))

/-- Events of the safety check in `parse_arguments` (evaluated whenever
copying is enabled). -/
def preEvents (w : World) (a : Args) : List Event :=
  if a.nocopy = 0 then [.safeCheck a.repodir (safe_path w.cwd a.repodir)] else []

/-- Whole run: the two fatal checks of `parse_arguments` (malformed
`--opt`, unsafe staging directory), then the `try` body wrapped in the
top-level handler, which logs any `Exception` and lets the process end
with status 0; `SystemExit` carries its code through. -/
def runMain (w : World) (a : Args) : List Event × Nat :=
  if optOk a = false then ([.optErrLog], 1)
  else if a.nocopy = 0 ∧ safe_path w.cwd a.repodir = false then
    (preEvents w a ++ [.repoUnsafeLog], 1)
  else
    match mainBody w a with
    | (es, .ok) => (preEvents w a ++ es, 0)
    | (es, .exited c) => (preEvents w a ++ es, c)
    | (es, .raised _) => (preEvents w a ++ es ++ [.topErrorLog], 0)

/-! ## Generic lemmas about step composition -/

theorem seqS_of_ok {a b : Step} (ha : a.2 = .ok) : seqS a b = (a.1 ++ b.1, b.2) := by
  unfold seqS; rw [ha]

theorem seqS_of_not_ok {a b : Step} (ha : a.2 ≠ .ok) : seqS a b = a := by
  unfold seqS
  cases h : a.2 with
  | ok => exact absurd h ha
  | exited c => rfl
  | raised e => rfl

theorem mem_seqS {e : Event} {a b : Step} (h : e ∈ (seqS a b).1) : e ∈ a.1 ∨ e ∈ b.1 := by
  by_cases ha : a.2 = .ok
  · rw [seqS_of_ok ha] at h
    exact List.mem_append.mp h
  · rw [seqS_of_not_ok ha] at h
    exact Or.inl h

theorem seqS_forall {P : Event → Prop} {a b : Step}
    (ha : ∀ e ∈ a.1, P e) (hb : ∀ e ∈ b.1, P e) : ∀ e ∈ (seqS a b).1, P e := by
  intro e he
  rcases mem_seqS he with h | h
  · exact ha e h
  · exact hb e h

theorem emitS_forall {P : Event → Prop} {es : List Event}
    (h : ∀ e ∈ es, P e) : ∀ e ∈ (emitS es).1, P e := h

theorem check_call_forall {P : Event → Prop} {w : World} {args : List String}
    (h1 : P (.call args)) (h2 : P (.cmdFailedLog args)) :
    ∀ e ∈ (check_callStep w args).1, P e := by
  intro e he
  unfold check_callStep at he
  split at he <;> simp at he
  · rcases he with rfl | rfl
    · exact h1
    · exact h2
  · rw [he]; exact h1

theorem catchPatch_forall {P : Event → Prop} {s : Step}
    (hs : ∀ e ∈ s.1, P e) (hp : P .patchFailLog) : ∀ e ∈ (catchPatch s).1, P e := by
  intro e he
  unfold catchPatch at he
  split at he
  · rcases List.mem_append.mp he with h | h
    · exact hs e h
    · simp at h; rw [h]; exact hp
  · exact hs e he

/-! ## Event classification -/

/-- Events that the target-directory prelude, the id validation and the
top-level error handling can produce; staging, checkout, build and
analysis events are all excluded. -/
def preValidationEvent : Event → Bool
  | .optErrLog => true
  | .repoUnsafeLog => true
  | .warnExists => true
  | .promptDelete => true
  | .removingLog => true
  | .mkdirTgt _ => true
  | .safeCheck _ _ => true
  | .badIdLog _ => true
  | .topErrorLog => true
  | .cmdFailedLog _ => true
  | .call args => decide (args.head? = some "rm")
  | _ => false

/-- Subprocess invocation events. -/
def isCall : Event → Bool
  | .call _ => true
  | _ => false

/-- Command heads that the per-commit build loop can invoke. -/
def buildCallHeadOk (args : List String) : Bool :=
  decide (args.head? = some GIT ∨ args.head? = some "./autogen.sh" ∨
    args.head? = some "./configure" ∨ args.head? = some MAKE ∨ args.head? = some OBJCOPY)

/-- Events that the per-commit build loop can produce. -/
def loopEvent : Event → Bool
  | .call args => buildCallHeadOk args
  | .cmdFailedLog _ => true
  | .buildingLog _ => true
  | .skipLog _ => true
  | .mkdirCommit _ => true
  | .userPatchLog _ => true
  | .patchFailLog => true
  | .configureLog => true
  | .buildExeLog _ => true
  | .copyFile _ _ => true
  | .copyObjLog => true
  | .copyO _ _ => true
  | .analysisLog => true
  | .objdumpAll _ _ => true
  | _ => false

/-- Events that create or modify the per-revision artifacts below the
target directory (or remove the target directory itself). -/
def writesTgtArtifacts (tgt : String) : Event → Bool
  | .mkdirCommit _ => true
  | .copyO _ _ => true
  | .objdumpAll _ _ => true
  | .copyFile _ _ => true
  | .call args =>
    decide (args = ["rm", "-rf", tgt]) || buildCallHeadOk args
  | _ => false

theorem exeStep_events (w : World) (a : Args) (c n : String) :
    ∀ e ∈ (exeStep w a c n).1, loopEvent e = true := by
  unfold exeStep
  apply seqS_forall
  · intro e he; simp [emitS] at he; rw [he]; rfl
  apply seqS_forall
  · exact check_call_forall (by simp [loopEvent, buildCallHeadOk, MAKE, GIT, OBJCOPY]) rfl
  apply seqS_forall
  · intro e he; simp [emitS] at he; rw [he]; rfl
  · exact check_call_forall (by simp [loopEvent, buildCallHeadOk, MAKE, GIT, OBJCOPY]) rfl

theorem exesLoop_events (w : World) (a : Args) (c : String) (ns : List String) :
    ∀ e ∈ (exesLoop w a c ns).1, loopEvent e = true := by
  induction ns with
  | nil => intro e he; simp [exesLoop, emitS] at he
  | cons n rest ih => exact seqS_forall (exeStep_events w a c n) ih

theorem patchStep_events (w : World) (a : Args) (c : String) :
    ∀ e ∈ (patchStep w a c).1, loopEvent e = true := by
  unfold patchStep
  apply catchPatch_forall
  · apply seqS_forall
    · intro e he
      simp only [emitS] at he
      split at he <;> simp at he
      rw [he]; rfl
    · exact check_call_forall
        (by simp [loopEvent, buildCallHeadOk, gitApplyArgs, GIT]) rfl
  · rfl

theorem buildCommit_events (w : World) (a : Args) (c : String) :
    ∀ e ∈ (buildCommit w a c).1, loopEvent e = true := by
  unfold buildCommit
  apply seqS_forall
  · intro e he; simp [emitS] at he; rw [he]; rfl
  split
  · intro e he; simp [emitS] at he; rw [he]; rfl
  apply seqS_forall
  · intro e he; simp [emitS] at he; rw [he]; rfl
  apply seqS_forall
  · exact check_call_forall (by simp [loopEvent, buildCallHeadOk, GIT]) rfl
  apply seqS_forall
  · exact check_call_forall (by simp [loopEvent, buildCallHeadOk, GIT]) rfl
  apply seqS_forall
  · exact check_call_forall (by simp [loopEvent, buildCallHeadOk, GIT]) rfl
  apply seqS_forall
  · exact patchStep_events w a c
  apply seqS_forall
  · exact check_call_forall (by simp [loopEvent, buildCallHeadOk]) rfl
  apply seqS_forall
  · intro e he; simp [emitS] at he; rw [he]; rfl
  apply seqS_forall
  · exact check_call_forall (by simp [loopEvent, buildCallHeadOk, configureArgs]) rfl
  apply seqS_forall
  · exact exesLoop_events w a c (exesList a)
  apply seqS_forall
  · intro e he; simp [emitS] at he; rcases he with rfl | rfl <;> rfl
  apply seqS_forall
  · intro e he; simp [emitS] at he; rw [he]; rfl
  · split
    · intro e he; simp at he
    · intro e he; simp [emitS] at he; rw [he]; rfl

theorem buildLoop_events (w : World) (a : Args) (cs : List String) :
    ∀ e ∈ (buildLoop w a cs).1, loopEvent e = true := by
  induction cs with
  | nil => intro e he; simp [buildLoop, emitS] at he
  | cons c rest ih => exact seqS_forall (buildCommit_events w a c) ih

/-! ## Failure-shape invariant: a failing `check_call` ends the fragment -/

/-- Events that are not failure logs. -/
def cleanEv : Event → Bool
  | .cmdFailedLog _ => false
  | .patchFailLog => false
  | _ => true

/-- Shape invariant of every code fragment: either its trace is free of
failure logs and it did not propagate a `CalledProcessError`; or the
trace ends exactly at the logged failing command line, with the error
propagating; or it ends at the patch-failure log after the logged failing
`git apply` command line, with exit status 1. -/
def goodStep (s : Step) : Prop :=
  (s.1.all cleanEv = true ∧ ∀ args, s.2 ≠ .raised (.calledProcess args))
  ∨ (∃ pre args, s.1 = pre ++ [.cmdFailedLog args] ∧ pre.all cleanEv = true ∧
      s.2 = .raised (.calledProcess args))
  ∨ (∃ pre p, s.1 = pre ++ [.cmdFailedLog [GIT, "apply", p], .patchFailLog] ∧
      pre.all cleanEv = true ∧ s.2 = .exited 1)

theorem good_clean {es : List Event} {o : Outcome} (h : es.all cleanEv = true)
    (ho : ∀ args, o ≠ .raised (.calledProcess args)) : goodStep (es, o) :=
  Or.inl ⟨h, ho⟩

theorem good_emitS {es : List Event} (h : es.all cleanEv = true) : goodStep (emitS es) :=
  good_clean h (by intro args h2; exact Outcome.noConfusion h2)

theorem good_check_call (w : World) (args : List String) :
    goodStep (check_callStep w args) := by
  unfold check_callStep
  split
  · refine Or.inr (Or.inl ⟨[.call args], args, rfl, rfl, rfl⟩)
  · exact good_emitS rfl

theorem good_seqS {a b : Step} (ha : goodStep a) (hb : goodStep b) :
    goodStep (seqS a b) := by
  by_cases h2 : a.2 = .ok
  · rw [seqS_of_ok h2]
    rcases ha with ⟨hac, _⟩ | ⟨pre, args, _, _, hout⟩ | ⟨pre, p, _, _, hout⟩
    · rcases hb with ⟨hbc, hbo⟩ | ⟨pre, args, heq, hpre, hout⟩ | ⟨pre, p, heq, hpre, hout⟩
      · exact Or.inl ⟨by simp [List.all_append, hac, hbc], hbo⟩
      · refine Or.inr (Or.inl ⟨a.1 ++ pre, args, ?_, ?_, hout⟩)
        · rw [heq, List.append_assoc]
        · simp [List.all_append, hac, hpre]
      · refine Or.inr (Or.inr ⟨a.1 ++ pre, p, ?_, ?_, hout⟩)
        · rw [heq, List.append_assoc]
        · simp [List.all_append, hac, hpre]
    · rw [h2] at hout; exact Outcome.noConfusion hout
    · rw [h2] at hout; exact Outcome.noConfusion hout
  · rw [seqS_of_not_ok h2]
    exact ha

theorem good_patchStep (w : World) (a : Args) (c : String) :
    goodStep (patchStep w a c) := by
  unfold patchStep catchPatch
  by_cases hf : w.cmdFails (gitApplyArgs w a c) = true
  · have hstep :
        seqS (emitS (if hasUserPatch a c then [.userPatchLog (patchFor a c)] else []))
          (check_callStep w (gitApplyArgs w a c)) =
        ((if hasUserPatch a c then [Event.userPatchLog (patchFor a c)] else []) ++
          [.call (gitApplyArgs w a c), .cmdFailedLog (gitApplyArgs w a c)],
          .raised (.calledProcess (gitApplyArgs w a c))) := by
      rw [seqS_of_ok rfl]
      simp [check_callStep, hf, emitS]
    rw [hstep]
    refine Or.inr (Or.inr
      ⟨(if hasUserPatch a c then [Event.userPatchLog (patchFor a c)] else []) ++
        [.call (gitApplyArgs w a c)], pyJoin (PATCHDIR w) (patchFor a c), ?_, ?_, rfl⟩)
    · simp [gitApplyArgs]
    · split <;> simp [cleanEv]
  · have hf2 : w.cmdFails (gitApplyArgs w a c) = false := by
      revert hf; cases w.cmdFails (gitApplyArgs w a c) <;> simp
    have hstep :
        seqS (emitS (if hasUserPatch a c then [.userPatchLog (patchFor a c)] else []))
          (check_callStep w (gitApplyArgs w a c)) =
        ((if hasUserPatch a c then [Event.userPatchLog (patchFor a c)] else []) ++
          [.call (gitApplyArgs w a c)], .ok) := by
      rw [seqS_of_ok rfl]
      simp [check_callStep, hf2, emitS]
    rw [hstep]
    exact good_emitS (by split <;> simp [cleanEv])

theorem good_exeStep (w : World) (a : Args) (c n : String) :
    goodStep (exeStep w a c n) := by
  unfold exeStep
  exact good_seqS (good_emitS rfl)
    (good_seqS (good_check_call w _)
      (good_seqS (good_emitS rfl) (good_check_call w _)))

theorem good_exesLoop (w : World) (a : Args) (c : String) (ns : List String) :
    goodStep (exesLoop w a c ns) := by
  induction ns with
  | nil => exact good_emitS rfl
  | cons n rest ih => exact good_seqS (good_exeStep w a c n) ih

theorem good_buildCommit (w : World) (a : Args) (c : String) :
    goodStep (buildCommit w a c) := by
  unfold buildCommit
  refine good_seqS (good_emitS rfl) ?_
  split
  · exact good_emitS rfl
  · refine good_seqS (good_emitS rfl) ?_
    refine good_seqS (good_check_call w _) ?_
    refine good_seqS (good_check_call w _) ?_
    refine good_seqS (good_check_call w _) ?_
    refine good_seqS (good_patchStep w a c) ?_
    refine good_seqS (good_check_call w _) ?_
    refine good_seqS (good_emitS rfl) ?_
    refine good_seqS (good_check_call w _) ?_
    refine good_seqS (good_exesLoop w a c _) ?_
    refine good_seqS (good_emitS rfl) ?_
    refine good_seqS (good_emitS rfl) ?_
    split
    · exact good_clean rfl (by intro args h2; injection h2 with h3; exact PyExn.noConfusion h3)
    · exact good_emitS rfl

theorem good_buildLoop (w : World) (a : Args) (cs : List String) :
    goodStep (buildLoop w a cs) := by
  induction cs with
  | nil => exact good_emitS rfl
  | cons c rest ih => exact good_seqS (good_buildCommit w a c) ih

theorem good_validateIds (l : List String) : goodStep (validateIds l) := by
  induction l with
  | nil => exact good_emitS rfl
  | cons c rest ih =>
    unfold validateIds
    split
    · exact ih
    · exact good_clean rfl (by intro args h2; exact Outcome.noConfusion h2)

theorem good_preludeStep (w : World) (a : Args) : goodStep (preludeStep w a) := by
  unfold preludeStep
  split
  · exact good_emitS rfl
  · split
    · split
      · exact good_seqS (good_emitS rfl) (good_check_call w _)
      · exact good_emitS rfl
    · exact good_emitS rfl

theorem good_copyRepoStep (w : World) (a : Args) : goodStep (copyRepoStep w a) := by
  unfold copyRepoStep
  split
  · exact good_seqS (good_emitS rfl) (good_check_call w _)
  · exact good_seqS (good_emitS rfl)
      (good_seqS (good_check_call w _)
        (good_seqS (good_check_call w _)
          (good_seqS (good_check_call w _) (good_check_call w _))))

theorem good_stageStep (w : World) (a : Args) : goodStep (stageStep w a) := by
  unfold stageStep
  split
  · exact good_emitS rfl
  · split
    · exact good_seqS (good_emitS rfl)
        (good_seqS (good_copyRepoStep w a) (good_emitS rfl))
    · exact good_emitS rfl

theorem good_compareStep (a : Args) : goodStep (compareStep a) := by
  unfold compareStep
  split <;> exact good_emitS rfl

theorem good_mainBody (w : World) (a : Args) : goodStep (mainBody w a) := by
  unfold mainBody
  exact good_seqS (good_preludeStep w a)
    (good_seqS (good_validateIds a.commitids)
      (good_seqS (good_stageStep w a)
        (good_seqS (good_buildLoop w a a.commitids) (good_compareStep a))))

/-! ## Outcome analysis: which fragments can raise `SystemExit` -/

theorem seq_exited {a b : Step} {n : Nat} (h : (seqS a b).2 = .exited n) :
    a.2 = .exited n ∨ (a.2 = .ok ∧ b.2 = .exited n) := by
  by_cases h2 : a.2 = .ok
  · rw [seqS_of_ok h2] at h
    exact Or.inr ⟨h2, h⟩
  · rw [seqS_of_not_ok h2] at h
    exact Or.inl h

theorem emitS_outcome (es : List Event) : (emitS es).2 = .ok := rfl

theorem check_call_not_exited {w : World} {args : List String} {n : Nat} :
    (check_callStep w args).2 ≠ .exited n := by
  unfold check_callStep
  split <;> intro h <;> exact Outcome.noConfusion h

theorem patchStep_outcome (w : World) (a : Args) (c : String) :
    (patchStep w a c).2 =
      (if w.cmdFails (gitApplyArgs w a c) = true then .exited 1 else .ok) := by
  unfold patchStep catchPatch check_callStep
  cases hf : w.cmdFails (gitApplyArgs w a c) <;> simp [hf, seqS, emitS]

theorem exeStep_not_exited {w : World} {a : Args} {c nm : String} {n : Nat} :
    (exeStep w a c nm).2 ≠ .exited n := by
  intro h
  unfold exeStep at h
  rcases seq_exited h with h1 | ⟨-, h⟩
  · exact Outcome.noConfusion h1
  rcases seq_exited h with h1 | ⟨-, h⟩
  · exact check_call_not_exited h1
  rcases seq_exited h with h1 | ⟨-, h⟩
  · exact Outcome.noConfusion h1
  · exact check_call_not_exited h

theorem exesLoop_not_exited {w : World} {a : Args} {c : String} {ns : List String} {n : Nat} :
    (exesLoop w a c ns).2 ≠ .exited n := by
  induction ns with
  | nil => intro h; exact Outcome.noConfusion h
  | cons x rest ih =>
    intro h
    rcases seq_exited h with h1 | ⟨-, h⟩
    · exact exeStep_not_exited h1
    · exact ih h

theorem buildCommit_exited {w : World} {a : Args} {c : String} {n : Nat}
    (h : (buildCommit w a c).2 = .exited n) :
    n = 1 ∧ w.cmdFails (gitApplyArgs w a c) = true := by
  unfold buildCommit at h
  rcases seq_exited h with h1 | ⟨-, h⟩
  · exact absurd h1 (by intro h2; exact Outcome.noConfusion h2)
  revert h
  split
  · intro h; exact absurd h (by intro h2; exact Outcome.noConfusion h2)
  intro h
  rcases seq_exited h with h1 | ⟨-, h⟩
  · exact Outcome.noConfusion h1
  rcases seq_exited h with h1 | ⟨-, h⟩
  · exact absurd h1 check_call_not_exited
  rcases seq_exited h with h1 | ⟨-, h⟩
  · exact absurd h1 check_call_not_exited
  rcases seq_exited h with h1 | ⟨-, h⟩
  · exact absurd h1 check_call_not_exited
  rcases seq_exited h with h1 | ⟨-, h⟩
  · rw [patchStep_outcome] at h1
    revert h1
    split
    · intro h1
      injection h1 with h2
      exact ⟨h2.symm, by assumption⟩
    · intro h1; exact Outcome.noConfusion h1
  rcases seq_exited h with h1 | ⟨-, h⟩
  · exact absurd h1 check_call_not_exited
  rcases seq_exited h with h1 | ⟨-, h⟩
  · exact Outcome.noConfusion h1
  rcases seq_exited h with h1 | ⟨-, h⟩
  · exact absurd h1 check_call_not_exited
  rcases seq_exited h with h1 | ⟨-, h⟩
  · exact absurd h1 exesLoop_not_exited
  rcases seq_exited h with h1 | ⟨-, h⟩
  · exact Outcome.noConfusion h1
  rcases seq_exited h with h1 | ⟨-, h⟩
  · exact Outcome.noConfusion h1
  revert h
  split <;> intro h <;> exact Outcome.noConfusion h

theorem buildLoop_exited {w : World} {a : Args} {cs : List String} {n : Nat}
    (h : (buildLoop w a cs).2 = .exited n) :
    n = 1 ∧ ∃ c ∈ cs, w.cmdFails (gitApplyArgs w a c) = true := by
  induction cs with
  | nil => exact absurd h (by intro h2; exact Outcome.noConfusion h2)
  | cons c rest ih =>
    rcases seq_exited h with h1 | ⟨-, h1⟩
    · obtain ⟨hn, hf⟩ := buildCommit_exited h1
      exact ⟨hn, c, by simp, hf⟩
    · obtain ⟨hn, c2, hc2, hf⟩ := ih h1
      exact ⟨hn, c2, by simp [hc2], hf⟩

theorem preludeStep_not_exited {w : World} {a : Args} {n : Nat} :
    (preludeStep w a).2 ≠ .exited n := by
  unfold preludeStep
  split
  · intro h; exact Outcome.noConfusion h
  split
  · split
    · intro h
      rcases seq_exited h with h1 | ⟨-, h1⟩
      · exact Outcome.noConfusion h1
      · exact check_call_not_exited h1
    · intro h; exact Outcome.noConfusion h
  · intro h; exact Outcome.noConfusion h

theorem copyRepoStep_not_exited {w : World} {a : Args} {n : Nat} :
    (copyRepoStep w a).2 ≠ .exited n := by
  unfold copyRepoStep
  split
  · intro h
    rcases seq_exited h with h1 | ⟨-, h1⟩
    · exact Outcome.noConfusion h1
    · exact check_call_not_exited h1
  · intro h
    rcases seq_exited h with h1 | ⟨-, h⟩
    · exact Outcome.noConfusion h1
    rcases seq_exited h with h1 | ⟨-, h⟩
    · exact check_call_not_exited h1
    rcases seq_exited h with h1 | ⟨-, h⟩
    · exact check_call_not_exited h1
    rcases seq_exited h with h1 | ⟨-, h⟩
    · exact check_call_not_exited h1
    · exact check_call_not_exited h

theorem stageStep_not_exited {w : World} {a : Args} {n : Nat} :
    (stageStep w a).2 ≠ .exited n := by
  unfold stageStep
  split
  · intro h; exact Outcome.noConfusion h
  split
  · intro h
    rcases seq_exited h with h1 | ⟨-, h⟩
    · exact Outcome.noConfusion h1
    rcases seq_exited h with h1 | ⟨-, h⟩
    · exact copyRepoStep_not_exited h1
    · exact Outcome.noConfusion h
  · intro h; exact Outcome.noConfusion h

theorem compareStep_not_exited {a : Args} {n : Nat} : (compareStep a).2 ≠ .exited n := by
  unfold compareStep
  split <;> intro h <;> exact Outcome.noConfusion h

theorem validate_exited {l : List String} {n : Nat} (h : (validateIds l).2 = .exited n) :
    n = 1 ∧ ∃ c ∈ l, pyIntBase16Valid c = false := by
  induction l with
  | nil => exact absurd h (by intro h2; exact Outcome.noConfusion h2)
  | cons c rest ih =>
    unfold validateIds at h
    revert h
    split
    · intro h
      obtain ⟨hn, c2, hc2, hv⟩ := ih h
      exact ⟨hn, c2, by simp [hc2], hv⟩
    · intro h
      injection h with h2
      refine ⟨h2.symm, c, by simp, ?_⟩
      rename_i hv
      revert hv
      cases pyIntBase16Valid c <;> simp

theorem validate_ok_of_all {l : List String} (h : ∀ c ∈ l, pyIntBase16Valid c = true) :
    validateIds l = ([], .ok) := by
  induction l with
  | nil => rfl
  | cons c rest ih =>
    unfold validateIds
    rw [if_pos (h c (by simp))]
    exact ih (fun c2 hc2 => h c2 (by simp [hc2]))

theorem validate_exits_of_invalid {l : List String}
    (h : ∃ c ∈ l, pyIntBase16Valid c = false) :
    ∃ c, validateIds l = ([.badIdLog c], .exited 1) ∧ pyIntBase16Valid c = false := by
  induction l with
  | nil => simp at h
  | cons c rest ih =>
    unfold validateIds
    by_cases hv : pyIntBase16Valid c = true
    · rw [if_pos hv]
      apply ih
      obtain ⟨c2, hc2, hv2⟩ := h
      rcases List.mem_cons.mp hc2 with rfl | hmem
      · rw [hv] at hv2; exact Bool.noConfusion hv2
      · exact ⟨c2, hmem, hv2⟩
    · rw [if_neg hv]
      refine ⟨c, rfl, ?_⟩
      revert hv
      cases pyIntBase16Valid c <;> simp

theorem mainBody_exited {w : World} {a : Args} {n : Nat}
    (h : (mainBody w a).2 = .exited n) :
    n = 1 ∧ ((∃ c ∈ a.commitids, pyIntBase16Valid c = false) ∨
      (∃ c ∈ a.commitids, w.cmdFails (gitApplyArgs w a c) = true)) := by
  unfold mainBody at h
  rcases seq_exited h with h1 | ⟨-, h⟩
  · exact absurd h1 preludeStep_not_exited
  rcases seq_exited h with h1 | ⟨-, h⟩
  · obtain ⟨hn, hinv⟩ := validate_exited h1
    exact ⟨hn, Or.inl hinv⟩
  rcases seq_exited h with h1 | ⟨-, h⟩
  · exact absurd h1 stageStep_not_exited
  rcases seq_exited h with h1 | ⟨-, h⟩
  · obtain ⟨hn, hf⟩ := buildLoop_exited h1
    exact ⟨hn, Or.inr hf⟩
  · exact absurd h compareStep_not_exited

/-! ## Event classification of the remaining fragments -/

theorem preEvents_forall {P : Event → Prop} {w : World} {a : Args}
    (h : P (.safeCheck a.repodir (safe_path w.cwd a.repodir))) :
    ∀ e ∈ preEvents w a, P e := by
  intro e he
  unfold preEvents at he
  split at he <;> simp at he
  rw [he]; exact h

theorem preludeStep_events (w : World) (a : Args) :
    ∀ e ∈ (preludeStep w a).1, preValidationEvent e = true := by
  unfold preludeStep
  split
  · intro e he; simp [emitS] at he; rw [he]; rfl
  split
  · split
    · apply seqS_forall
      · intro e he; simp [emitS] at he
        rcases he with rfl | rfl | rfl | rfl <;> rfl
      · exact check_call_forall (by simp [preValidationEvent]) rfl
    · intro e he; simp [emitS] at he
      rcases he with rfl | rfl | rfl <;> rfl
  · intro e he; simp [emitS] at he
    rcases he with rfl | rfl <;> rfl

theorem check_call_call_mem {w : World} {args args2 : List String}
    (h : Event.call args ∈ (check_callStep w args2).1) : args = args2 := by
  unfold check_callStep at h
  split at h <;> simp at h <;> exact h

theorem preludeStep_call {w : World} {a : Args} {args : List String}
    (h : Event.call args ∈ (preludeStep w a).1) :
    args = ["rm", "-rf", a.tgtdir] ∧ safe_path w.cwd a.tgtdir = true := by
  unfold preludeStep at h
  split at h
  · simp [emitS] at h
  split at h
  · split at h
    · rcases mem_seqS h with h2 | h2
      · simp [emitS] at h2
      · refine ⟨check_call_call_mem h2, by assumption⟩
    · simp [emitS] at h
  · simp [emitS] at h

/-- Events the staging fragment can produce. -/
def stageEvent : Event → Bool
  | .safeCheck _ _ => true
  | .whichCall _ _ => true
  | .rsyncLog => true
  | .noRsyncWarn => true
  | .copyRepoLog => true
  | .chdir _ => true
  | .cmdFailedLog _ => true
  | .call args =>
    decide (args.head? = some RSYNC ∨ args.head? = some "mkdir" ∨
      args.head? = some "touch" ∨ args.head? = some "rm" ∨ args.head? = some "cp")
  | _ => false

theorem copyRepoStep_events (w : World) (a : Args) :
    ∀ e ∈ (copyRepoStep w a).1, stageEvent e = true := by
  unfold copyRepoStep
  split
  · apply seqS_forall
    · intro e he; simp [emitS] at he; rcases he with rfl | rfl <;> rfl
    · exact check_call_forall (by simp [stageEvent]) rfl
  · apply seqS_forall
    · intro e he; simp [emitS] at he; rcases he with rfl | rfl | rfl <;> rfl
    apply seqS_forall
    · exact check_call_forall (by simp [stageEvent]) rfl
    apply seqS_forall
    · exact check_call_forall (by simp [stageEvent]) rfl
    apply seqS_forall
    · exact check_call_forall (by simp [stageEvent]) rfl
    · exact check_call_forall (by simp [stageEvent]) rfl

theorem stageStep_events (w : World) (a : Args) :
    ∀ e ∈ (stageStep w a).1, stageEvent e = true := by
  unfold stageStep
  split
  · intro e he; simp [emitS] at he
  split
  · apply seqS_forall
    · intro e he; simp [emitS] at he; rw [he]; rfl
    apply seqS_forall
    · exact copyRepoStep_events w a
    · intro e he; simp [emitS] at he; rw [he]; rfl
  · intro e he; simp [emitS] at he; rw [he]; rfl

theorem copyRepoStep_call {w : World} {a : Args} {args : List String}
    (h : Event.call args ∈ (copyRepoStep w a).1) :
    args = [RSYNC, "-r", "--delete", ".git", a.repodir] ∨
    args = ["mkdir", "-p", a.repodir] ∨ args = ["touch", pyJoin a.repodir ".git"] ∨
    args = ["rm", "-rf", pyJoin a.repodir ".git"] ∨
    args = ["cp", "-r", ".git", a.repodir] := by
  have hcc : ∀ (args2 : List String), Event.call args ∈ (check_callStep w args2).1 →
      args = args2 := fun _ h2 => check_call_call_mem h2
  unfold copyRepoStep at h
  split at h
  · rcases mem_seqS h with h2 | h2
    · simp [emitS] at h2
    · exact Or.inl (hcc _ h2)
  · rcases mem_seqS h with h2 | h2
    · simp [emitS] at h2
    rcases mem_seqS h2 with h3 | h3
    · exact Or.inr (Or.inl (hcc _ h3))
    rcases mem_seqS h3 with h4 | h4
    · exact Or.inr (Or.inr (Or.inl (hcc _ h4)))
    rcases mem_seqS h4 with h5 | h5
    · exact Or.inr (Or.inr (Or.inr (Or.inl (hcc _ h5))))
    · exact Or.inr (Or.inr (Or.inr (Or.inr (hcc _ h5))))

theorem stageStep_call {w : World} {a : Args} {args : List String}
    (h : Event.call args ∈ (stageStep w a).1) :
    a.nocopy = 0 ∧ safe_path w.cwd a.repodir = true ∧
    (args = [RSYNC, "-r", "--delete", ".git", a.repodir] ∨
     args = ["mkdir", "-p", a.repodir] ∨ args = ["touch", pyJoin a.repodir ".git"] ∨
     args = ["rm", "-rf", pyJoin a.repodir ".git"] ∨
     args = ["cp", "-r", ".git", a.repodir]) := by
  unfold stageStep at h
  split at h
  · simp [emitS] at h
  split at h
  · refine ⟨by omega, by assumption, ?_⟩
    rcases mem_seqS h with h2 | h2
    · simp [emitS] at h2
    rcases mem_seqS h2 with h3 | h3
    · exact copyRepoStep_call h3
    · simp [emitS] at h3
  · simp [emitS] at h

theorem validate_events (l : List String) :
    ∀ e ∈ (validateIds l).1, ∃ c, e = .badIdLog c := by
  induction l with
  | nil => intro e he; simp [validateIds, emitS] at he
  | cons c rest ih =>
    unfold validateIds
    split
    · exact ih
    · intro e he; simp at he; exact ⟨c, he⟩

theorem compareStep_events (a : Args) : ∀ e ∈ (compareStep a).1, e = .compareLog := by
  unfold compareStep
  split
  · intro e he; simp [emitS] at he; exact he
  · intro e he; simp [emitS] at he

theorem mainBody_mem {w : World} {a : Args} {e : Event} (h : e ∈ (mainBody w a).1) :
    e ∈ (preludeStep w a).1 ∨ e ∈ (validateIds a.commitids).1 ∨
    e ∈ (stageStep w a).1 ∨ e ∈ (buildLoop w a a.commitids).1 ∨
    e ∈ (compareStep a).1 := by
  unfold mainBody at h
  rcases mem_seqS h with h1 | h1
  · exact Or.inl h1
  rcases mem_seqS h1 with h2 | h2
  · exact Or.inr (Or.inl h2)
  rcases mem_seqS h2 with h3 | h3
  · exact Or.inr (Or.inr (Or.inl h3))
  rcases mem_seqS h3 with h4 | h4
  · exact Or.inr (Or.inr (Or.inr (Or.inl h4)))
  · exact Or.inr (Or.inr (Or.inr (Or.inr h4)))

theorem runMain_mem {w : World} {a : Args} {e : Event} (h : e ∈ (runMain w a).1) :
    e = .optErrLog ∨ e ∈ preEvents w a ∨ e = .repoUnsafeLog ∨ e = .topErrorLog ∨
    e ∈ (mainBody w a).1 := by
  unfold runMain at h
  split at h
  · simp at h; exact Or.inl h
  split at h
  · simp at h
    rcases h with h | h
    · exact Or.inr (Or.inl h)
    · exact Or.inr (Or.inr (Or.inl h))
  · rcases hmb : mainBody w a with ⟨es, o⟩
    rw [hmb] at h
    have hes : es = (mainBody w a).1 := by rw [hmb]
    cases o with
    | ok =>
      rcases List.mem_append.mp h with h | h
      · exact Or.inr (Or.inl h)
      · exact Or.inr (Or.inr (Or.inr (Or.inr (hes ▸ h))))
    | exited c =>
      rcases List.mem_append.mp h with h | h
      · exact Or.inr (Or.inl h)
      · exact Or.inr (Or.inr (Or.inr (Or.inr (hes ▸ h))))
    | raised ex =>
      rcases List.mem_append.mp h with h | h
      · rcases List.mem_append.mp h with h | h
        · exact Or.inr (Or.inl h)
        · exact Or.inr (Or.inr (Or.inr (Or.inr (hes ▸ h))))
      · rcases List.mem_singleton.mp h with rfl
        exact Or.inr (Or.inr (Or.inr (Or.inl rfl)))

/-! ## Run-level helper lemmas -/

theorem preEvents_clean (w : World) (a : Args) : (preEvents w a).all cleanEv = true := by
  unfold preEvents
  split <;> rfl

theorem preludeStep_outcome (w : World) (a : Args) :
    (preludeStep w a).2 = .ok ∨
    ((preludeStep w a).2 = .raised (.calledProcess ["rm", "-rf", a.tgtdir]) ∧
      w.cmdFails ["rm", "-rf", a.tgtdir] = true) := by
  unfold preludeStep
  split
  · exact Or.inl rfl
  split
  · split
    · rw [seqS_of_ok rfl]
      unfold check_callStep
      by_cases hf : w.cmdFails ["rm", "-rf", a.tgtdir] = true
      · rw [if_pos hf]
        exact Or.inr ⟨rfl, hf⟩
      · rw [if_neg hf]
        exact Or.inl rfl
    · exact Or.inl rfl
  · exact Or.inl rfl

theorem compareStep_ok (a : Args) : (compareStep a).2 = .ok := by
  unfold compareStep
  split <;> rfl

theorem runMain_of_body {w : World} {a : Args} (hopt : optOk a = true)
    (hns : ¬(a.nocopy = 0 ∧ safe_path w.cwd a.repodir = false)) :
    runMain w a =
      (match mainBody w a with
       | (es, .ok) => (preEvents w a ++ es, 0)
       | (es, .exited c) => (preEvents w a ++ es, c)
       | (es, .raised _) => (preEvents w a ++ es ++ [.topErrorLog], 0)) := by
  unfold runMain
  rw [if_neg (by simp [hopt]), if_neg hns]

/-- Failure shape of a whole run: either no failure was logged, or the
trace ends right after the failed command line (with the top-level
handler's log and exit 0), or it ends at the patch-failure log (exit 1).
-/
theorem runMain_failShape (w : World) (a : Args) :
    (runMain w a).1.all cleanEv = true
    ∨ (∃ pre args, (runMain w a).1 = pre ++ [.cmdFailedLog args, .topErrorLog] ∧
        pre.all cleanEv = true ∧ (runMain w a).2 = 0)
    ∨ (∃ pre p, (runMain w a).1 =
        pre ++ [.cmdFailedLog [GIT, "apply", p], .patchFailLog] ∧
        pre.all cleanEv = true ∧ (runMain w a).2 = 1) := by
  unfold runMain
  split
  · exact Or.inl rfl
  split
  · left
    rw [List.all_append, preEvents_clean w a]
    rfl
  · have hg := good_mainBody w a
    rcases hmb : mainBody w a with ⟨es, o⟩
    rw [hmb] at hg
    cases o with
    | ok =>
      rcases hg with ⟨hc, -⟩ | ⟨pre, args, heq, hpre, ho⟩ | ⟨pre, p, heq, hpre, ho⟩
      · left
        have hc2 : es.all cleanEv = true := hc
        rw [List.all_append, preEvents_clean w a, hc2]
        rfl
      · exact absurd ho (by intro h2; exact Outcome.noConfusion h2)
      · exact absurd ho (by intro h2; exact Outcome.noConfusion h2)
    | exited c =>
      rcases hg with ⟨hc, -⟩ | ⟨pre, args, heq, hpre, ho⟩ | ⟨pre, p, heq, hpre, ho⟩
      · left
        have hc2 : es.all cleanEv = true := hc
        rw [List.all_append, preEvents_clean w a, hc2]
        rfl
      · exact absurd ho (by intro h2; exact Outcome.noConfusion h2)
      · right; right
        have heq2 : es = pre ++ [.cmdFailedLog [GIT, "apply", p], .patchFailLog] := heq
        have ho2 : Outcome.exited c = Outcome.exited 1 := ho
        injection ho2 with h2
        subst h2
        refine ⟨preEvents w a ++ pre, p, ?_, ?_, rfl⟩
        · show preEvents w a ++ es = _
          rw [heq2, List.append_assoc]
        · rw [List.all_append, preEvents_clean w a, hpre]
          rfl
    | raised ex =>
      rcases hg with ⟨hc, hno⟩ | ⟨pre, args, heq, hpre, ho⟩ | ⟨pre, p, heq, hpre, ho⟩
      · cases ex with
        | calledProcess args => exact absurd rfl (hno args)
        | objdumpFailed =>
          left
          have hc2 : es.all cleanEv = true := hc
          show (preEvents w a ++ es ++ [Event.topErrorLog]).all cleanEv = true
          rw [List.append_assoc, List.all_append, List.all_append,
            preEvents_clean w a, hc2]
          rfl
      · right; left
        have heq2 : es = pre ++ [.cmdFailedLog args] := heq
        refine ⟨preEvents w a ++ pre, args, ?_, ?_, rfl⟩
        · show preEvents w a ++ es ++ [Event.topErrorLog] = _
          rw [heq2]
          simp [List.append_assoc]
        · rw [List.all_append, preEvents_clean w a, hpre]
          rfl
      · exact absurd ho (by intro h2; exact Outcome.noConfusion h2)

/-- With an invalid id in the batch, the body reduces to the prelude
followed by the single bad-id log. -/
theorem mainBody_invalid {w : World} {a : Args}
    (hinv : ∃ c ∈ a.commitids, pyIntBase16Valid c = false) :
    ∃ c, mainBody w a = seqS (preludeStep w a) ([.badIdLog c], .exited 1) ∧
      pyIntBase16Valid c = false := by
  obtain ⟨c, hval, hc⟩ := validate_exits_of_invalid hinv
  refine ⟨c, ?_, hc⟩
  unfold mainBody
  have hne : (([Event.badIdLog c], Outcome.exited 1) : Step).2 ≠ .ok := by
    intro h2; exact Outcome.noConfusion h2
  rw [hval, seqS_of_not_ok hne]

/-! ## Support lemmas for resumable runs (pre-existing commit directories) -/

theorem buildCommit_skip {w : World} {a : Args} {c : String}
    (h : w.commitdirExists c = true) :
    buildCommit w a c = ([.buildingLog c, .skipLog (pyJoin a.tgtdir c)], .ok) := by
  unfold buildCommit
  simp [h, seqS, emitS]

theorem buildLoop_skip {w : World} {a : Args} {cs : List String}
    (h : ∀ c ∈ cs, w.commitdirExists c = true) :
    buildLoop w a cs =
      ((cs.map (fun c => [Event.buildingLog c, Event.skipLog (pyJoin a.tgtdir c)])).flatten,
        .ok) := by
  induction cs with
  | nil => rfl
  | cons c rest ih =>
    unfold buildLoop
    rw [buildCommit_skip (h c (by simp)), ih (fun c2 hc2 => h c2 (by simp [hc2])),
      seqS_of_ok rfl]
    simp

theorem check_call_ok {w : World} {args : List String}
    (h : w.cmdFails args = false) : (check_callStep w args).2 = .ok := by
  unfold check_callStep
  rw [h]
  rfl

theorem copyRepoStep_ok {w : World} {a : Args} (hfail : ∀ l, w.cmdFails l = false) :
    (copyRepoStep w a).2 = .ok := by
  unfold copyRepoStep
  split
  · rw [seqS_of_ok rfl]
    exact check_call_ok (hfail _)
  · rw [seqS_of_ok rfl, seqS_of_ok (check_call_ok (hfail _)),
      seqS_of_ok (check_call_ok (hfail _)), seqS_of_ok (check_call_ok (hfail _))]
    exact check_call_ok (hfail _)

theorem stageStep_ok {w : World} {a : Args} (hfail : ∀ l, w.cmdFails l = false) :
    (stageStep w a).2 = .ok := by
  unfold stageStep
  split
  · rfl
  split
  · rw [seqS_of_ok rfl, seqS_of_ok (copyRepoStep_ok hfail)]
    rfl
  · rfl

theorem preludeStep_no_delete {w : World} {a : Args}
    (hin : ¬(w.userInput = "y" ∨ w.userInput = "Y")) :
    (preludeStep w a).2 = .ok ∧ ∀ e ∈ (preludeStep w a).1, isCall e = false := by
  unfold preludeStep
  by_cases ht : w.tgtdirExists = false
  · rw [if_pos ht]
    exact ⟨rfl, by intro e he; simp [emitS] at he; rw [he]; rfl⟩
  · rw [if_neg ht]
    by_cases hs : safe_path w.cwd a.tgtdir = true
    · rw [if_pos hs, if_neg hin]
      refine ⟨rfl, ?_⟩
      intro e he; simp [emitS] at he
      rcases he with rfl | rfl | rfl <;> rfl
    · rw [if_neg hs]
      refine ⟨rfl, ?_⟩
      intro e he; simp [emitS] at he
      rcases he with rfl | rfl <;> rfl

/-! ## Support lemmas for the collector, the analyzer and the path guard -/

theorem leadsWith_refl (l : List Char) : leadsWith l l = true := by
  have h := leadsWith_append l []
  rwa [List.append_nil] at h

theorem walkRoot_leads (srcdir : String) (en : WalkEntry) :
    leadsWith (chars srcdir) (chars (walkRoot srcdir en)) = true := by
  unfold walkRoot
  split
  · exact leadsWith_refl _
  · show leadsWith (chars srcdir) (chars (srcdir ++ "/" ++ en.dir)) = true
    rw [chars_append, chars_append, List.append_assoc]
    exact leadsWith_append _ _

theorem walkRoot_drop (srcdir : String) (en : WalkEntry) :
    (chars (walkRoot srcdir en)).drop (srcdir.length + 1) = chars en.dir := by
  unfold walkRoot
  split
  · rename_i hd
    rw [hd]
    refine Eq.trans (List.drop_eq_nil_of_le ?_) rfl
    simp
  · show (chars (srcdir ++ "/" ++ en.dir)).drop (srcdir.length + 1) = chars en.dir
    rw [chars_append, chars_append]
    have hlen : srcdir.length + 1 = (chars srcdir ++ chars "/").length := by
      rw [List.length_append]
      rfl
    rw [hlen]
    exact List.drop_left _ _

theorem iterate_objs_eq (srcdir : String) (walk : List WalkEntry) :
    iterate_objs srcdir walk = some (walk.filterMap (fun en =>
      if trailsWith (chars OBJEXT) (chars en.file) then some (pyJoin en.dir en.file)
      else none)) := by
  induction walk with
  | nil => rfl
  | cons en rest ih =>
    unfold iterate_objs
    rw [if_neg (by rw [walkRoot_leads srcdir en]; simp)]
    have hrel : ofChars ((chars (walkRoot srcdir en)).drop (srcdir.length + 1)) = en.dir := by
      rw [walkRoot_drop srcdir en]
      exact ofChars_chars en.dir
    rw [ih, List.filterMap_cons, hrel]
    by_cases hobj : trailsWith (chars OBJEXT) (chars en.file) = true
    · simp [hobj]
    · rw [Bool.not_eq_true] at hobj
      simp [hobj]

theorem filter_map_fst (t : String) (l : List (String × List String)) :
    (((l.filter (fun p => decide (¬(p.1 = "")))).map
        (fun p => (sectionOutName t p.1, strJoinNL p.2))).map Prod.fst) =
      ((l.map Prod.fst).filter (fun n => decide (¬(n = "")))).map
        (fun n => sectionOutName t n) := by
  induction l with
  | nil => rfl
  | cons p rest ih =>
    by_cases hp : p.1 = ""
    · simp only [List.filter_cons, hp] at ih ⊢
      simp [hp] at ih ⊢
      exact ih
    · simp only [List.filter_cons, hp] at ih ⊢
      simp [hp] at ih ⊢
      exact ih

theorem safe_path_iff (cwd p : String) :
    safe_path cwd p = true ↔
      (leadsWith (chars TMPDIR) (abspathL (chars cwd) (chars p)) = true ∧
        2 ≤ (splitCharL '/' ((abspathL (chars cwd) (chars p)).drop 1)).length) := by
  unfold safe_path
  by_cases hl : leadsWith ['/'] (abspathL (chars cwd) (chars p)) = true
  · rw [if_neg (by rw [hl]; simp)]
    rw [Bool.and_eq_true, decide_eq_true_iff]
    constructor
    · rintro ⟨h1, h2⟩
      exact ⟨h2, by omega⟩
    · rintro ⟨h1, h2⟩
      exact ⟨by omega, h1⟩
  · rw [if_pos (by rw [Bool.not_eq_true] at hl; rw [hl]; simp)]
    constructor
    · intro h; exact Bool.noConfusion h
    · rintro ⟨h1, -⟩
      have hT : chars TMPDIR = '/' :: ['t', 'm', 'p'] := rfl
      rw [hT] at h1
      exact absurd (leadsWith_head h1) hl

/-! ## Runs containing an invalid commit id -/

theorem invalid_id_events {w : World} {a : Args}
    (hinv : ∃ c ∈ a.commitids, pyIntBase16Valid c = false) :
    ∀ e ∈ (runMain w a).1, preValidationEvent e = true := by
  intro e he
  by_cases hopt : optOk a = false
  · unfold runMain at he
    rw [if_pos hopt] at he
    simp at he
    rw [he]; rfl
  · have hopt2 : optOk a = true := by revert hopt; cases optOk a <;> simp
    by_cases hns : a.nocopy = 0 ∧ safe_path w.cwd a.repodir = false
    · unfold runMain at he
      rw [if_neg (by simp [hopt2]), if_pos hns] at he
      rcases List.mem_append.mp he with h | h
      · exact @preEvents_forall (fun e2 => preValidationEvent e2 = true) w a rfl e h
      · simp at h; rw [h]; rfl
    · rw [runMain_of_body hopt2 hns] at he
      obtain ⟨c, hmb, -⟩ := mainBody_invalid hinv
      rcases preludeStep_outcome w a with hok | ⟨hraise, -⟩
      · have hmb2 : mainBody w a =
            ((preludeStep w a).1 ++ [Event.badIdLog c], .exited 1) := by
          rw [hmb, seqS_of_ok hok]
        rw [hmb2] at he
        rcases List.mem_append.mp he with h | h
        · exact @preEvents_forall (fun e2 => preValidationEvent e2 = true) w a rfl e h
        rcases List.mem_append.mp h with h | h
        · exact preludeStep_events w a e h
        · simp at h; rw [h]; rfl
      · have hmb2 : mainBody w a = preludeStep w a := by
          rw [hmb, seqS_of_not_ok (by rw [hraise]; intro h2; exact Outcome.noConfusion h2)]
        rw [hmb2] at he
        rcases hp : preludeStep w a with ⟨pes, po⟩
        rw [hp] at he hraise
        have hpo : po = .raised (.calledProcess ["rm", "-rf", a.tgtdir]) := hraise
        rw [hpo] at he
        rcases List.mem_append.mp he with h | h
        · rcases List.mem_append.mp h with h2 | h2
          · exact @preEvents_forall (fun e2 => preValidationEvent e2 = true) w a rfl e h2
          · have hmem : e ∈ (preludeStep w a).1 := by rw [hp]; exact h2
            exact preludeStep_events w a e hmem
        · simp at h; rw [h]; rfl

theorem invalid_id_exit {w : World} {a : Args}
    (hinv : ∃ c ∈ a.commitids, pyIntBase16Valid c = false)
    (hrm : w.cmdFails ["rm", "-rf", a.tgtdir] = false) :
    (runMain w a).2 = 1 := by
  by_cases hopt : optOk a = false
  · unfold runMain
    rw [if_pos hopt]
  · have hopt2 : optOk a = true := by revert hopt; cases optOk a <;> simp
    by_cases hns : a.nocopy = 0 ∧ safe_path w.cwd a.repodir = false
    · unfold runMain
      rw [if_neg (by simp [hopt2]), if_pos hns]
    · rw [runMain_of_body hopt2 hns]
      obtain ⟨c, hmb, -⟩ := mainBody_invalid hinv
      rcases preludeStep_outcome w a with hok | ⟨-, hfail⟩
      · have hmb2 : mainBody w a =
            ((preludeStep w a).1 ++ [Event.badIdLog c], .exited 1) := by
          rw [hmb, seqS_of_ok hok]
        rw [hmb2]
      · rw [hfail] at hrm
        exact Bool.noConfusion hrm

/-! ## Remaining small helpers -/

theorem seqS_pair_ok (es : List Event) (b : Step) :
    seqS (es, .ok) b = (es ++ b.1, b.2) := rfl

theorem mem_flatten_of {α : Type} {x : α} {l : List α} {L : List (List α)}
    (h1 : l ∈ L) (h2 : x ∈ l) : x ∈ L.flatten := by
  induction L with
  | nil => simp at h1
  | cons l2 rest ih =>
    rw [List.flatten_cons]
    rcases List.mem_cons.mp h1 with rfl | hmem
    · exact List.mem_append.mpr (Or.inl h2)
    · exact List.mem_append.mpr (Or.inr (ih hmem))

theorem mem_flatten_ex {α : Type} {x : α} {L : List (List α)}
    (h : x ∈ L.flatten) : ∃ l ∈ L, x ∈ l := by
  induction L with
  | nil => simp at h
  | cons l2 rest ih =>
    rw [List.flatten_cons] at h
    rcases List.mem_append.mp h with h2 | h2
    · exact ⟨l2, by simp, h2⟩
    · obtain ⟨l3, hl3, hx⟩ := ih h2
      exact ⟨l3, by simp [hl3], hx⟩

/-- Safety-check events. -/
def isSafeCheck : Event → Bool
  | .safeCheck _ _ => true
  | _ => false

theorem preVal_noCall_writes (t : String) (e : Event)
    (h1 : preValidationEvent e = true) (h2 : isCall e = false) :
    writesTgtArtifacts t e = false := by
  cases e <;> simp_all [preValidationEvent, isCall, writesTgtArtifacts]

theorem stageStep_writes {w : World} {a : Args} {t : String}
    (hne : pyJoin a.repodir ".git" ≠ t) :
    ∀ e ∈ (stageStep w a).1, writesTgtArtifacts t e = false := by
  intro e he
  have hse := stageStep_events w a e he
  cases e <;> try rfl
  case call args =>
    obtain ⟨-, -, hshape⟩ := stageStep_call he
    rcases hshape with rfl | rfl | rfl | rfl | rfl <;>
      simp [writesTgtArtifacts, buildCallHeadOk, RSYNC, GIT, MAKE, OBJCOPY, hne]
  case mkdirCommit d => simp [stageEvent] at hse
  case copyFile s d => simp [stageEvent] at hse
  case copyO s d => simp [stageEvent] at hse
  case objdumpAll s d => simp [stageEvent] at hse

/-! ## Claims -/

/-- C1 (amended): the analysis pass persists, for every named section of
one disassembly, its filtered text under a file named by the SHA-1 digest
of the section NAME (not of the filtered text); consequently the set of
file names produced is fully determined by the section names alone, and
equal names always give equal file names regardless of content. -/
theorem C1_filename_is_hash_of_section_name :
    (∀ (t out nm : String) (ls : List String),
      (nm, ls) ∈ splitFilterSections out → nm ≠ "" →
      (sectionOutName t nm, strJoinNL ls) ∈ objdumpWrites t out) ∧
    (∀ t out : String, (objdumpWrites t out).map Prod.fst =
      (((splitFilterSections out).map Prod.fst).filter (fun n => decide (¬(n = "")))).map
        (fun n => sectionOutName t n)) := by
  constructor
  · intro t out nm ls hmem hne
    unfold objdumpWrites
    exact List.mem_map.mpr ⟨(nm, ls), List.mem_filter.mpr ⟨hmem, by simp [hne]⟩, rfl⟩
  · intro t out
    exact filter_map_fst t (splitFilterSections out)

/-- Disassembler output in which two differently named sections keep
byte-identical filtered text (both header lines mention `.rodata` and are
filtered out). -/
def cexDisOut : String :=
  "Disassembly of section .rodata.a:\nmov\nDisassembly of section .rodata.b:\nmov"

/-- C1 counterexample: two sections whose persisted filtered texts are
byte-identical are written under two distinct hash file names, refuting
that the file name is a digest of the filtered text. -/
theorem C1_counterexample :
    (objdumpWrites "/t" cexDisOut).map Prod.snd = ["mov", "mov"] ∧
    ((objdumpWrites "/t" cexDisOut).map Prod.fst).Nodup ∧
    (objdumpWrites "/t" cexDisOut).length = 2 := by decide

theorem C1_witness :
    (sectionOutName "/t" ".rodata.a", strJoinNL ["mov"]) ∈ objdumpWrites "/t" cexDisOut :=
  C1_filename_is_hash_of_section_name.1 "/t" cexDisOut ".rodata.a" ["mov"]
    (by decide) (by decide)

/-- C2 (amended): `safe_path` accepts exactly the paths whose absolutized
form has the temp root as a raw character-sequence leading segment and at
least two slash-separated components after the leading slash; the root
itself and `/etc` are rejected, but string-extensions of the root outside
it (such as `/tmpfoo/x`) are accepted. -/
theorem C2_safe_path_characterization :
    (∀ cwd p : String, safe_path cwd p = true ↔
      (leadsWith (chars TMPDIR) (abspathL (chars cwd) (chars p)) = true ∧
        2 ≤ (splitCharL '/' ((abspathL (chars cwd) (chars p)).drop 1)).length)) ∧
    safe_path "/" TMPDIR = false ∧ safe_path "/" "/etc" = false := by
  refine ⟨safe_path_iff, by decide, by decide⟩

/-- C2 counterexample: `/tmpfoo/x` does not lie under the temp root, yet
`safe_path` accepts it, refuting "true for no path outside the temporary
root". -/
theorem C2_counterexample :
    safe_path "/" "/tmpfoo/x" = true ∧ underTmpRootSpec "/tmpfoo/x" = false ∧
    "/tmpfoo/x" ≠ TMPDIR := by decide

theorem C2_witness : safe_path "/" "/tmp/x" = true :=
  (C2_safe_path_characterization.1 "/" "/tmp/x").mpr (by decide)

/-- C5 (amended): the commit-id validator accepts every bare hexadecimal
token, accepts "4b5b263", rejects "not-a-hash!", and an invalid id
anywhere in the batch prevents any revision from being processed; but the
validator also accepts strings that are not bare hexadecimal tokens
(signs, 0x markers, underscores, surrounding whitespace). -/
theorem C5_hex_id_validation :
    (∀ s : String, hexTokenSpec s = true → pyIntBase16Valid s = true) ∧
    pyIntBase16Valid "4b5b263" = true ∧
    pyIntBase16Valid "not-a-hash!" = false ∧
    (∀ (w : World) (a : Args), (∃ c ∈ a.commitids, pyIntBase16Valid c = false) →
      ∀ c2 : String, Event.buildingLog c2 ∉ (runMain w a).1) := by
  refine ⟨hexToken_accepted, by decide, by decide, ?_⟩
  intro w a hinv c2 hmem
  have h := invalid_id_events hinv _ hmem
  simp [preValidationEvent] at h

/-- C5 counterexample: the signed string "-ff" is not a hexadecimal
token, yet `int("-ff", 16)` succeeds, so the validator accepts it,
refuting the "only if" direction of the claim. -/
theorem C5_counterexample :
    pyIntBase16Valid "-ff" = true ∧ hexTokenSpec "-ff" = false := by decide

theorem C5_witness : pyIntBase16Valid "c0ffee" = true :=
  C5_hex_id_validation.1 "c0ffee" (by decide)

/-- C6 (confirmed): the object collector copies exactly the files whose
names end in the object extension, each from its relative path `R` under
the source root to the same relative path `R` under the destination. -/
theorem C6_copy_preserves_hierarchy :
    ∀ (srcdir tgtdir : String) (walk : List WalkEntry),
    ∃ copies, copy_o_files srcdir tgtdir walk = some copies ∧
      (∀ en ∈ walk, trailsWith (chars OBJEXT) (chars en.file) = true →
        (pyJoin srcdir (pyJoin en.dir en.file),
          pyJoin tgtdir (pyJoin en.dir en.file)) ∈ copies) ∧
      (∀ pr ∈ copies, ∃ en ∈ walk, trailsWith (chars OBJEXT) (chars en.file) = true ∧
        pr = (pyJoin srcdir (pyJoin en.dir en.file),
          pyJoin tgtdir (pyJoin en.dir en.file))) := by
  intro srcdir tgtdir walk
  refine ⟨(walk.filterMap (fun en =>
      if trailsWith (chars OBJEXT) (chars en.file) then some (pyJoin en.dir en.file)
      else none)).map
      (fun objname => (pyJoin srcdir objname, pyJoin tgtdir objname)), ?_, ?_, ?_⟩
  · unfold copy_o_files
    rw [iterate_objs_eq]
    rfl
  · intro en hen hobj
    apply List.mem_map.mpr
    refine ⟨pyJoin en.dir en.file, ?_, rfl⟩
    apply List.mem_filterMap.mpr
    exact ⟨en, hen, by rw [if_pos hobj]⟩
  · intro pr hpr
    obtain ⟨obj, hobj, rfl⟩ := List.mem_map.mp hpr
    obtain ⟨en, hen, hf⟩ := List.mem_filterMap.mp hobj
    by_cases ho : trailsWith (chars OBJEXT) (chars en.file) = true
    · rw [if_pos ho] at hf
      injection hf with hf2
      exact ⟨en, hen, ho, by rw [hf2]⟩
    · rw [if_neg ho] at hf
      exact Option.noConfusion hf

/-- Example walk of a build tree. -/
def walkEx : List WalkEntry :=
  [⟨"", "init.o"⟩, ⟨"src", "main.o"⟩, ⟨"src", "notes.txt"⟩, ⟨"src/wallet", "db.o"⟩]

theorem C6_witness :
    (pyJoin "." (pyJoin "src" "main.o"), pyJoin "/t" (pyJoin "src" "main.o")) ∈
      ((copy_o_files "." "/t" walkEx).getD []) := by
  obtain ⟨copies, h1, h2, -⟩ := C6_copy_preserves_hierarchy "." "/t" walkEx
  have hm := h2 ⟨"src", "main.o"⟩ (by decide) (by decide)
  rw [h1]
  simpa using hm

/-- C3 (amended): the target-directory removal runs only after its own
passing `safe_path` check (or coincides with the staged `.git` removal,
which is covered by the staging-directory check), the mirroring with
deletion runs only with copying enabled and a passing staging-directory
check, and an unsafe staging directory aborts the run with exit 1 before
any subprocess is invoked.  (The `git clean` of untracked files is NOT
preceded by any check: see the counterexample.) -/
theorem C3_destructive_ops_guarding : ∀ (w : World) (a : Args),
    (Event.call ["rm", "-rf", a.tgtdir] ∈ (runMain w a).1 →
      safe_path w.cwd a.tgtdir = true ∨
      (a.nocopy = 0 ∧ safe_path w.cwd a.repodir = true ∧
        a.tgtdir = pyJoin a.repodir ".git")) ∧
    (Event.call [RSYNC, "-r", "--delete", ".git", a.repodir] ∈ (runMain w a).1 →
      a.nocopy = 0 ∧ safe_path w.cwd a.repodir = true) ∧
    (a.nocopy = 0 → safe_path w.cwd a.repodir = false →
      (runMain w a).2 = 1 ∧ ∀ e ∈ (runMain w a).1, isCall e = false) := by
  intro w a
  refine ⟨?_, ?_, ?_⟩
  · intro h
    rcases runMain_mem h with h1 | h1 | h1 | h1 | h1
    · exact Event.noConfusion h1
    · have h2 := @preEvents_forall (fun e2 => isCall e2 = false) w a rfl _ h1
      simp [isCall] at h2
    · exact Event.noConfusion h1
    · exact Event.noConfusion h1
    · rcases mainBody_mem h1 with h2 | h2 | h2 | h2 | h2
      · exact Or.inl (preludeStep_call h2).2
      · obtain ⟨c, hc⟩ := validate_events _ _ h2
        exact Event.noConfusion hc
      · obtain ⟨h0, hs, hshape⟩ := stageStep_call h2
        rcases hshape with hs1 | hs1 | hs1 | hs1 | hs1
        · exact absurd hs1 (by simp [RSYNC])
        · exact absurd hs1 (by simp)
        · exact absurd hs1 (by simp)
        · have heq : a.tgtdir = pyJoin a.repodir ".git" := by
            simpa using hs1
          exact Or.inr ⟨h0, hs, heq⟩
        · exact absurd hs1 (by simp)
      · have h3 := buildLoop_events w a a.commitids _ h2
        simp [loopEvent, buildCallHeadOk, GIT, MAKE, OBJCOPY] at h3
      · have h3 := compareStep_events a _ h2
        exact Event.noConfusion h3
  · intro h
    rcases runMain_mem h with h1 | h1 | h1 | h1 | h1
    · exact Event.noConfusion h1
    · have h2 := @preEvents_forall (fun e2 => isCall e2 = false) w a rfl _ h1
      simp [isCall] at h2
    · exact Event.noConfusion h1
    · exact Event.noConfusion h1
    · rcases mainBody_mem h1 with h2 | h2 | h2 | h2 | h2
      · have h3 := (preludeStep_call h2).1
        exact absurd h3 (by simp [RSYNC])
      · obtain ⟨c, hc⟩ := validate_events _ _ h2
        exact Event.noConfusion hc
      · obtain ⟨h0, hs, hshape⟩ := stageStep_call h2
        rcases hshape with hs1 | hs1 | hs1 | hs1 | hs1
        · exact ⟨h0, hs⟩
        · exact absurd hs1 (by simp [RSYNC])
        · exact absurd hs1 (by simp [RSYNC])
        · exact absurd hs1 (by simp [RSYNC])
        · exact absurd hs1 (by simp [RSYNC])
      · have h3 := buildLoop_events w a a.commitids _ h2
        simp [loopEvent, buildCallHeadOk, GIT, MAKE, OBJCOPY, RSYNC] at h3
      · have h3 := compareStep_events a _ h2
        exact Event.noConfusion h3
  · intro h0 hs
    by_cases hopt : optOk a = false
    · unfold runMain
      rw [if_pos hopt]
      exact ⟨rfl, by intro e he; simp at he; rw [he]; rfl⟩
    · unfold runMain
      rw [if_neg (by revert hopt; cases optOk a <;> simp), if_pos ⟨h0, hs⟩]
      refine ⟨rfl, ?_⟩
      intro e he
      rcases List.mem_append.mp he with h | h
      · exact @preEvents_forall (fun e2 => isCall e2 = false) w a rfl e h
      · simp at h; rw [h]; rfl

/-- In-place build (`--nocopy=1`) on a fresh target directory. -/
def wCex3 : World :=
  { cwd := "/home/user/repo", pydir := "/opt/mt", tgtdirExists := false,
    userInput := "n", rsyncAvailable := true,
    commitdirExists := fun _ => false, cmdFails := fun _ => false,
    objdumpFails := fun _ => false }

def aCex3 : Args :=
  { commitids := ["ab"], executables := "src/koyotecoind",
    tgtdir := "/tmp/compare", repodir := "/tmp/repo",
    parallelism := 4, assertions := 0, opt := none, patches := none,
    dependsDir := none, nocopy := 1 }

/-- C3 counterexample: with `--nocopy=1`, the run cleans untracked and
ignored files (`git clean -f -x -d`, a destructive operation on the
working tree) while evaluating no SafetyGuard check at all, and completes
with exit 0; so not every destructive operation is preceded by a check. -/
theorem C3_counterexample :
    Event.call [GIT, "clean", "-f", "-x", "-d"] ∈ (runMain wCex3 aCex3).1 ∧
    (runMain wCex3 aCex3).1.all (fun e => !(isSafeCheck e)) = true ∧
    (runMain wCex3 aCex3).2 = 0 := by decide

/-- Staged build pointed at a staging directory outside the temp root. -/
def wWit3 : World :=
  { cwd := "/home/user/repo", pydir := "/opt/mt", tgtdirExists := false,
    userInput := "n", rsyncAvailable := true,
    commitdirExists := fun _ => false, cmdFails := fun _ => false,
    objdumpFails := fun _ => false }

def aWit3 : Args :=
  { commitids := ["ab"], executables := "src/koyotecoind",
    tgtdir := "/tmp/compare", repodir := "/etc/repo",
    parallelism := 4, assertions := 0, opt := none, patches := none,
    dependsDir := none, nocopy := 0 }

theorem C3_witness : (runMain wWit3 aWit3).2 = 1 :=
  ((C3_destructive_ops_guarding wWit3 aWit3).2.2 rfl (by decide)).1

/-- C4 (amended): an invalid revision id anywhere in the batch confines
the run to target-directory handling and validation logging (no staging,
no checkout, build, collection or analysis for any revision), and, as
long as the optional target-directory removal does not itself fail, ends
the process with exit status 1.  However that removal (with confirmation)
DOES run before validation: see the counterexample. -/
theorem C4_validation_blocks_revision_activity : ∀ (w : World) (a : Args),
    (∃ c ∈ a.commitids, pyIntBase16Valid c = false) →
    (∀ e ∈ (runMain w a).1, preValidationEvent e = true) ∧
    (w.cmdFails ["rm", "-rf", a.tgtdir] = false → (runMain w a).2 = 1) := by
  intro w a hinv
  exact ⟨invalid_id_events hinv, fun hrm => invalid_id_exit hinv hrm⟩

/-- Pre-existing target directory, operator confirms deletion, and the
single requested id "zz" is not hexadecimal. -/
def wCex4 : World :=
  { cwd := "/home/user/repo", pydir := "/opt/mt", tgtdirExists := true,
    userInput := "y", rsyncAvailable := true,
    commitdirExists := fun _ => false, cmdFails := fun _ => false,
    objdumpFails := fun _ => false }

def aCex4 : Args :=
  { commitids := ["zz"], executables := "src/koyotecoind",
    tgtdir := "/tmp/compare", repodir := "/tmp/repo",
    parallelism := 4, assertions := 0, opt := none, patches := none,
    dependsDir := none, nocopy := 1 }

/-- C4 counterexample: the recursive removal of the existing target
directory is performed (trace position 5) before the malformed id "zz" is
rejected (position 6), refuting "no destructive operation is ever
performed before a malformed identifier has been rejected". -/
theorem C4_counterexample :
    runMain wCex4 aCex4 =
      ([.warnExists, .safeCheck "/tmp/compare" true, .promptDelete, .removingLog,
        .call ["rm", "-rf", "/tmp/compare"], .badIdLog "zz"], 1) ∧
    pyIntBase16Valid "zz" = false := by decide

def wWit4 : World :=
  { cwd := "/home/user/repo", pydir := "/opt/mt", tgtdirExists := false,
    userInput := "n", rsyncAvailable := true,
    commitdirExists := fun _ => false, cmdFails := fun _ => false,
    objdumpFails := fun _ => false }

def aWit4 : Args :=
  { commitids := ["ab", "not-hex"], executables := "src/koyotecoind",
    tgtdir := "/tmp/compare", repodir := "/tmp/repo",
    parallelism := 4, assertions := 0, opt := none, patches := none,
    dependsDir := none, nocopy := 1 }

theorem C4_witness : (runMain wWit4 aWit4).2 = 1 :=
  (C4_validation_blocks_revision_activity wWit4 aWit4 (by decide)).2 rfl

/-- C7 (confirmed): when every requested revision's artifact directory
already exists (and the environment is otherwise sane), each revision is
logged and skipped, nothing below the target directory is created,
copied, rebuilt or removed, and the run exits with status 0. -/
theorem C7_preexisting_dirs_skipped : ∀ (w : World) (a : Args),
    (∀ c ∈ a.commitids, pyIntBase16Valid c = true) →
    (∀ c ∈ a.commitids, w.commitdirExists c = true) →
    optOk a = true →
    ¬(w.userInput = "y" ∨ w.userInput = "Y") →
    (a.nocopy = 0 → safe_path w.cwd a.repodir = true) →
    (∀ l, w.cmdFails l = false) →
    pyJoin a.repodir ".git" ≠ a.tgtdir →
    (runMain w a).2 = 0 ∧
    (∀ c ∈ a.commitids, Event.skipLog (pyJoin a.tgtdir c) ∈ (runMain w a).1) ∧
    (∀ e ∈ (runMain w a).1, writesTgtArtifacts a.tgtdir e = false) := by
  intro w a hvalid hdirs hopt hin hsafe hfail hne
  have hns : ¬(a.nocopy = 0 ∧ safe_path w.cwd a.repodir = false) := by
    rintro ⟨h0, hf⟩
    rw [hsafe h0] at hf
    exact Bool.noConfusion hf
  obtain ⟨hpo, hpc⟩ := @preludeStep_no_delete w a hin
  have hv := validate_ok_of_all hvalid
  have hso := @stageStep_ok w a hfail
  have hlo := @buildLoop_skip w a a.commitids hdirs
  have hmb : mainBody w a =
      ((preludeStep w a).1 ++ ((stageStep w a).1 ++
        (((a.commitids.map (fun c => [Event.buildingLog c,
            Event.skipLog (pyJoin a.tgtdir c)])).flatten) ++ (compareStep a).1)),
        (compareStep a).2) := by
    unfold mainBody
    rw [hv, hlo]
    rw [seqS_of_ok hpo]
    simp only [seqS_pair_ok, seqS_of_ok hso, List.nil_append]
  rw [runMain_of_body hopt hns, hmb, compareStep_ok]
  refine ⟨rfl, ?_, ?_⟩
  · intro c hc
    show Event.skipLog (pyJoin a.tgtdir c) ∈ preEvents w a ++ _
    refine List.mem_append.mpr (Or.inr ?_)
    refine List.mem_append.mpr (Or.inr ?_)
    refine List.mem_append.mpr (Or.inr ?_)
    refine List.mem_append.mpr (Or.inl ?_)
    refine mem_flatten_of (List.mem_map.mpr ⟨c, hc, rfl⟩) ?_
    simp
  · intro e he
    rcases List.mem_append.mp he with h | h
    · exact @preEvents_forall (fun e2 => writesTgtArtifacts a.tgtdir e2 = false) w a rfl e h
    rcases List.mem_append.mp h with h | h
    · exact preVal_noCall_writes a.tgtdir e (preludeStep_events w a e h) (hpc e h)
    rcases List.mem_append.mp h with h | h
    · exact stageStep_writes hne e h
    rcases List.mem_append.mp h with h | h
    · obtain ⟨l, hl, hx⟩ := mem_flatten_ex h
      obtain ⟨c, -, rfl⟩ := List.mem_map.mp hl
      rcases List.mem_cons.mp hx with rfl | hx2
      · rfl
      · rcases List.mem_singleton.mp hx2 with rfl
        rfl
    · rw [compareStep_events a e h]
      rfl

/-- Second run over the same target directory: both commit directories
already exist. -/
def wWit7 : World :=
  { cwd := "/home/user/repo", pydir := "/opt/mt", tgtdirExists := true,
    userInput := "n", rsyncAvailable := true,
    commitdirExists := fun _ => true, cmdFails := fun _ => false,
    objdumpFails := fun _ => false }

def aWit7 : Args :=
  { commitids := ["4b5b263", "d1bc5bf"], executables := "src/koyotecoind",
    tgtdir := "/tmp/compare", repodir := "/tmp/repo",
    parallelism := 4, assertions := 0, opt := none, patches := none,
    dependsDir := none, nocopy := 0 }

theorem C7_witness :
    (runMain wWit7 aWit7).2 = 0 ∧
    Event.skipLog (pyJoin "/tmp/compare" "4b5b263") ∈ (runMain wWit7 aWit7).1 := by
  have h := C7_preexisting_dirs_skipped wWit7 aWit7 (by decide) (fun _ _ => rfl) rfl
    (by decide) (fun _ => by decide) (fun _ => rfl) (by decide)
  exact ⟨h.1, h.2.1 "4b5b263" (by decide)⟩

/-- C8 (confirmed): whenever the build-info-stripping patch application
fails, the run terminates immediately with exit status 1; the trace ends
at the logged failing `git apply` command line followed by the
patch-failure log, so no further build step of the current revision and
no later revision is ever attempted. -/
theorem C8_patch_failure_fatal : ∀ (w : World) (a : Args),
    Event.patchFailLog ∈ (runMain w a).1 →
    (runMain w a).2 = 1 ∧
    ∃ pre p, (runMain w a).1 =
      pre ++ [.cmdFailedLog [GIT, "apply", p], .patchFailLog] := by
  intro w a hmem
  rcases runMain_failShape w a with hclean | ⟨pre, args, heq, hpre, -⟩ |
    ⟨pre, p, heq, hpre, hexit⟩
  · have h := List.all_eq_true.mp hclean _ hmem
    simp [cleanEv] at h
  · exfalso
    rw [heq] at hmem
    rcases List.mem_append.mp hmem with h | h
    · have h2 := List.all_eq_true.mp hpre _ h
      simp [cleanEv] at h2
    · rcases List.mem_cons.mp h with h2 | h2
      · exact Event.noConfusion h2
      · rcases List.mem_singleton.mp h2 with h3
        exact Event.noConfusion h3
  · exact ⟨hexit, pre, p, heq⟩

/-- World in which every `git apply` invocation exits non-zero. -/
def wCex8 : World :=
  { cwd := "/home/user/repo", pydir := "/opt/mt", tgtdirExists := false,
    userInput := "n", rsyncAvailable := true,
    commitdirExists := fun _ => false,
    cmdFails := fun l => decide (l.take 2 = ["git", "apply"]),
    objdumpFails := fun _ => false }

def aWit8 : Args :=
  { commitids := ["ab", "cd"], executables := "src/koyotecoind",
    tgtdir := "/tmp/compare", repodir := "/tmp/repo",
    parallelism := 4, assertions := 0, opt := none, patches := none,
    dependsDir := none, nocopy := 1 }

theorem C8_witness :
    Event.patchFailLog ∈ (runMain wCex8 aWit8).1 ∧ (runMain wCex8 aWit8).2 = 1 :=
  ⟨by decide, (C8_patch_failure_fatal wCex8 aWit8 (by decide)).1⟩

/-- C9 (amended): a non-zero exit of a subprocess invoked through the
`check_call` wrapper has its full command line logged and nothing runs
after it: the trace either stays free of failure logs, or ends right
after the failure log with only the top-level error log following (exit
0), or ends at the patch-failure log (exit 1).  The `which` probe and the
disassembler are not invoked through the wrapper: see the counterexample.
-/
theorem C9_checkcall_failures_end_run : ∀ (w : World) (a : Args),
    (runMain w a).1.all cleanEv = true
    ∨ (∃ pre args, (runMain w a).1 = pre ++ [.cmdFailedLog args, .topErrorLog] ∧
        pre.all cleanEv = true ∧ (runMain w a).2 = 0)
    ∨ (∃ pre p, (runMain w a).1 =
        pre ++ [.cmdFailedLog [GIT, "apply", p], .patchFailLog] ∧
        pre.all cleanEv = true ∧ (runMain w a).2 = 1) :=
  runMain_failShape

/-- World whose `which rsync` probe exits non-zero (rsync missing). -/
def wCex9 : World :=
  { cwd := "/home/user/repo", pydir := "/opt/mt", tgtdirExists := false,
    userInput := "n", rsyncAvailable := false,
    commitdirExists := fun _ => false, cmdFails := fun _ => false,
    objdumpFails := fun _ => false }

def aCex9 : Args :=
  { commitids := ["ab"], executables := "src/koyotecoind",
    tgtdir := "/tmp/compare", repodir := "/tmp/repo",
    parallelism := 4, assertions := 0, opt := none, patches := none,
    dependsDir := none, nocopy := 0 }

/-- C9 counterexample: the `which rsync` subprocess returns non-zero
(recorded as `whichCall "rsync" false`), yet no failing command line is
logged, the run continues to build the revision, and it ends with exit 0;
so a non-zero subprocess exit does not always log the command and abort.
-/
theorem C9_counterexample :
    Event.whichCall "rsync" false ∈ (runMain wCex9 aCex9).1 ∧
    Event.buildingLog "ab" ∈ (runMain wCex9 aCex9).1 ∧
    (runMain wCex9 aCex9).2 = 0 ∧
    (runMain wCex9 aCex9).1.all cleanEv = true := by decide

/-- C10 (confirmed): the process exit status is always 0 or 1; it is 1
only for a malformed `--opt`, an unsafe staging directory, a
non-hexadecimal revision id, or a failing patch application; under those
four conditions' absence the run exits 0 even if other subprocesses or
the disassembler fail; and any exception propagating out of the body is
absorbed by the top-level handler, which appends its error log and lets
the process end with status 0. -/
theorem C10_exit_status_behaviour : ∀ (w : World) (a : Args),
    ((runMain w a).2 = 0 ∨ (runMain w a).2 = 1) ∧
    ((runMain w a).2 = 1 →
      optOk a = false ∨ (a.nocopy = 0 ∧ safe_path w.cwd a.repodir = false) ∨
      (∃ c ∈ a.commitids, pyIntBase16Valid c = false) ∨
      (∃ c ∈ a.commitids, w.cmdFails (gitApplyArgs w a c) = true)) ∧
    (optOk a = true → (a.nocopy = 0 → safe_path w.cwd a.repodir = true) →
      (∀ c ∈ a.commitids, pyIntBase16Valid c = true) →
      (∀ c ∈ a.commitids, w.cmdFails (gitApplyArgs w a c) = false) →
      (runMain w a).2 = 0) ∧
    (∀ ex : PyExn, (mainBody w a).2 = .raised ex → optOk a = true →
      ¬(a.nocopy = 0 ∧ safe_path w.cwd a.repodir = false) →
      (runMain w a).2 = 0 ∧
      (runMain w a).1 = preEvents w a ++ (mainBody w a).1 ++ [.topErrorLog]) := by
  intro w a
  refine ⟨?_, ?_, ?_, ?_⟩
  · by_cases hopt : optOk a = false
    · unfold runMain
      rw [if_pos hopt]
      exact Or.inr rfl
    · have hopt2 : optOk a = true := by revert hopt; cases optOk a <;> simp
      by_cases hns : a.nocopy = 0 ∧ safe_path w.cwd a.repodir = false
      · unfold runMain
        rw [if_neg (by simp [hopt2]), if_pos hns]
        exact Or.inr rfl
      · rw [runMain_of_body hopt2 hns]
        rcases hmb : mainBody w a with ⟨es, o⟩
        cases o with
        | ok => exact Or.inl rfl
        | raised ex => exact Or.inl rfl
        | exited c =>
          right
          have h := mainBody_exited (show (mainBody w a).2 = .exited c by rw [hmb])
          exact h.1 ▸ rfl
  · intro h1
    by_cases hopt : optOk a = false
    · exact Or.inl hopt
    · have hopt2 : optOk a = true := by revert hopt; cases optOk a <;> simp
      by_cases hns : a.nocopy = 0 ∧ safe_path w.cwd a.repodir = false
      · exact Or.inr (Or.inl hns)
      · rw [runMain_of_body hopt2 hns] at h1
        rcases hmb : mainBody w a with ⟨es, o⟩
        rw [hmb] at h1
        cases o with
        | ok =>
          have h2 : (0 : Nat) = 1 := h1
          exact absurd h2 (by decide)
        | raised ex =>
          have h2 : (0 : Nat) = 1 := h1
          exact absurd h2 (by decide)
        | exited c =>
          have h := mainBody_exited (show (mainBody w a).2 = .exited c by rw [hmb])
          rcases h.2 with hx | hx
          · exact Or.inr (Or.inr (Or.inl hx))
          · exact Or.inr (Or.inr (Or.inr hx))
  · intro hopt hsafe hvalid hnofail
    have hns : ¬(a.nocopy = 0 ∧ safe_path w.cwd a.repodir = false) := by
      rintro ⟨h0, hf⟩
      rw [hsafe h0] at hf
      exact Bool.noConfusion hf
    rw [runMain_of_body hopt hns]
    rcases hmb : mainBody w a with ⟨es, o⟩
    cases o with
    | ok => rfl
    | raised ex => rfl
    | exited c =>
      exfalso
      have h := mainBody_exited (show (mainBody w a).2 = .exited c by rw [hmb])
      rcases h.2 with hx | hx
      · obtain ⟨c2, hc2, hv⟩ := hx
        rw [hvalid c2 hc2] at hv
        exact Bool.noConfusion hv
      · obtain ⟨c2, hc2, hv⟩ := hx
        rw [hnofail c2 hc2] at hv
        exact Bool.noConfusion hv
  · intro ex hraised hopt hns
    rw [runMain_of_body hopt hns]
    rcases hmb : mainBody w a with ⟨es, o⟩
    rw [hmb] at hraised
    have ho : o = .raised ex := hraised
    subst ho
    exact ⟨rfl, rfl⟩

/-- World whose disassembler pass fails for every revision. -/
def wWit10 : World :=
  { cwd := "/home/user/repo", pydir := "/opt/mt", tgtdirExists := false,
    userInput := "n", rsyncAvailable := true,
    commitdirExists := fun _ => false, cmdFails := fun _ => false,
    objdumpFails := fun _ => true }

def aWit10 : Args :=
  { commitids := ["ab"], executables := "src/koyotecoind",
    tgtdir := "/tmp/compare", repodir := "/tmp/repo",
    parallelism := 4, assertions := 0, opt := none, patches := none,
    dependsDir := none, nocopy := 1 }

theorem C10_witness : (runMain wWit10 aWit10).2 = 0 :=
  (C10_exit_status_behaviour wWit10 aWit10).2.2.1 rfl (by decide) (by decide) (by decide)
